import Mathlib

/-!
# A shallow embedding of `gonutz/atlas` (`atlas.go`)

The package packs images into one backing surface.  The embedding follows the
Go source declaration by declaration.

Modelling conventions:

* Go `int` is `Int`.  The only arithmetic in `atlas.go` is the translation of a
  packer rectangle by the surface origin; coordinates are taken in the range
  where Go's `int` does not wrap.
* A Go value of an interface type that refers to a mutable image
  (`draw.Image`) is a reference `Ref` into a `Heap` of image objects, so that
  aliasing between the atlas and its views is visible in the model.
* Image objects are the in-memory images of package `image`: a bounds
  rectangle, four 8-bit channels per coordinate, `At` answering the zero colour
  and `Set` doing nothing outside the bounds.  `draw.Draw`, `Atlas.Add` and
  `Set` are for colours of the surface's own colour model (`*image.NRGBA`, as
  `New` makes it), so channels are stored as they are.
  `draw.DrawTyped` and `Atlas.AddTyped` add the colour model of each image
  object and the conversion to the model of the destination that `draw.Draw`
  performs; they agree with `draw.Draw` and `Atlas.Add` when the models are the
  same.
* `New` and `image.NewNRGBA` give what the Go functions return.  `New.run`
  and `image.NewNRGBA.run` say whether they return: `image.NewNRGBA` panics
  when the length of the pixel buffer does not fit in `int` or the runtime
  does not grant the buffer.
* `(T, error)` results are pairs whose `error` is `Option String` (the text
  of `Error()`), `none` being `nil`.
* The rectangle packer `github.com/gonutz/binpacker` is a collaborator outside
  this repository: the development is parametric in a `binpacker.Packer`.
-/

namespace atlas

/-! ## Package `image`: points and rectangles -/

/-- Go `image.Point`. -/
structure image.Point where
  X : Int
  Y : Int
deriving DecidableEq, Repr

/-- Go `image.Rectangle`: `Min` inclusive, `Max` exclusive. -/
structure image.Rectangle where
  Min : image.Point
  Max : image.Point
deriving DecidableEq, Repr

/-- Go `image.Pt`. -/
def image.Pt (X Y : Int) : image.Point := ⟨X, Y⟩

/-- Go `Point.Add`. -/
def image.Point.Add (p q : image.Point) : image.Point := ⟨p.X + q.X, p.Y + q.Y⟩

/-- Go `Point.Sub`. -/
def image.Point.Sub (p q : image.Point) : image.Point := ⟨p.X - q.X, p.Y - q.Y⟩

/-- Go `Point.In`. -/
def image.Point.In (p : image.Point) (r : image.Rectangle) : Bool :=
  decide (r.Min.X ≤ p.X) && decide (p.X < r.Max.X) &&
    decide (r.Min.Y ≤ p.Y) && decide (p.Y < r.Max.Y)

/-- Go `image.ZR`, the zero rectangle. -/
def image.ZR : image.Rectangle := ⟨⟨0, 0⟩, ⟨0, 0⟩⟩

/-- Go `image.Rect`: the rectangle with the given corners, put in canonical order. -/
def image.Rect (x0 y0 x1 y1 : Int) : image.Rectangle :=
  let xa := if x0 > x1 then x1 else x0
  let xb := if x0 > x1 then x0 else x1
  let ya := if y0 > y1 then y1 else y0
  let yb := if y0 > y1 then y0 else y1
  ⟨⟨xa, ya⟩, ⟨xb, yb⟩⟩

/-- Go `Rectangle.Dx`. -/
def image.Rectangle.Dx (r : image.Rectangle) : Int := r.Max.X - r.Min.X

/-- Go `Rectangle.Dy`. -/
def image.Rectangle.Dy (r : image.Rectangle) : Int := r.Max.Y - r.Min.Y

/-- Go `Rectangle.Empty`. -/
def image.Rectangle.Empty (r : image.Rectangle) : Bool :=
  decide (r.Min.X ≥ r.Max.X) || decide (r.Min.Y ≥ r.Max.Y)

/-- Go `Rectangle.Add`: translation by a point. -/
def image.Rectangle.Add (r : image.Rectangle) (p : image.Point) : image.Rectangle :=
  ⟨r.Min.Add p, r.Max.Add p⟩

/-- Go `Rectangle.Intersect`. -/
def image.Rectangle.Intersect (r s : image.Rectangle) : image.Rectangle :=
  let minX := if r.Min.X < s.Min.X then s.Min.X else r.Min.X
  let minY := if r.Min.Y < s.Min.Y then s.Min.Y else r.Min.Y
  let maxX := if r.Max.X > s.Max.X then s.Max.X else r.Max.X
  let maxY := if r.Max.Y > s.Max.Y then s.Max.Y else r.Max.Y
  let t : image.Rectangle := ⟨⟨minX, minY⟩, ⟨maxX, maxY⟩⟩
  if t.Empty then image.ZR else t

/-- Go `Rectangle.Overlaps`. -/
def image.Rectangle.Overlaps (r s : image.Rectangle) : Bool :=
  !r.Empty && !s.Empty &&
    decide (r.Min.X < s.Max.X) && decide (s.Min.X < r.Max.X) &&
    decide (r.Min.Y < s.Max.Y) && decide (s.Min.Y < r.Max.Y)

/-- Go `Rectangle.In`: an empty rectangle is inside every rectangle. -/
def image.Rectangle.In (r s : image.Rectangle) : Bool :=
  if r.Empty then true
  else decide (s.Min.X ≤ r.Min.X) && decide (r.Max.X ≤ s.Max.X) &&
    decide (s.Min.Y ≤ r.Min.Y) && decide (r.Max.Y ≤ s.Max.Y)

/-! ## Package `image/color` and in-memory images -/

/-- Go `color.NRGBA`. -/
structure color.NRGBA where
  R : Nat
  G : Nat
  B : Nat
  A : Nat
deriving DecidableEq, Repr

/-- The zero colour `color.NRGBA{}`. -/
def color.zero : color.NRGBA := ⟨0, 0, 0, 0⟩

/-- An in-memory image object: its bounds and the colour stored at each coordinate. -/
structure image.Image where
  Rect : image.Rectangle
  Pix : Int → Int → color.NRGBA

/-- The method `Bounds` of an image object. -/
def image.Image.Bounds (p : image.Image) : image.Rectangle := p.Rect

/-- The method `At`: the zero colour outside the bounds. -/
def image.Image.At (p : image.Image) (x y : Int) : color.NRGBA :=
  if (image.Point.mk x y).In p.Rect then p.Pix x y else color.zero

/-- The method `Set`: no effect outside the bounds. -/
def image.Image.Set (p : image.Image) (x y : Int) (c : color.NRGBA) : image.Image :=
  if (image.Point.mk x y).In p.Rect then
    { p with Pix := fun u v => if u = x ∧ v = y then c else p.Pix u v }
  else p

/-- Go `image.NewNRGBA`: the zeroed image with the given bounds that it returns; whether
it returns is `image.NewNRGBA.run`. -/
def image.NewNRGBA (r : image.Rectangle) : image.Image :=
  { Rect := r, Pix := fun _ _ => color.zero }

/-! ## References to mutable images -/

/-- The address of an image object. -/
abbrev Ref := Nat

/-- The image objects that exist, by address, and the next free address. -/
structure Heap where
  cell : Ref → image.Image
  next : Ref

/-- Allocation of a new image object. -/
def Heap.alloc (h : Heap) (im : image.Image) : Ref × Heap :=
  (h.next, { cell := fun r => if r = h.next then im else h.cell r, next := h.next + 1 })

/-- Calling `Bounds()` on a `draw.Image` reference. -/
def Heap.Bounds (h : Heap) (r : Ref) : image.Rectangle := (h.cell r).Bounds

/-- Calling `At(x, y)` on a `draw.Image` reference. -/
def Heap.At (h : Heap) (r : Ref) (x y : Int) : color.NRGBA := (h.cell r).At x y

/-- Calling `Set(x, y, c)` on a `draw.Image` reference. -/
def Heap.Set (h : Heap) (r : Ref) (x y : Int) (c : color.NRGBA) : Heap :=
  { h with cell := fun q => if q = r then (h.cell r).Set x y c else h.cell q }

/-! ## Package `image/draw`: `Draw` with the `Src` operator -/

/-- Go `draw.clip` without a mask: the clipped rectangle and the shifted source point. -/
def draw.clip (dstB r srcB : image.Rectangle) (sp : image.Point) :
    image.Rectangle × image.Point :=
  let orig := r.Min
  let r1 := r.Intersect dstB
  let r2 := r1.Intersect (srcB.Add (orig.Sub sp))
  let dx := r2.Min.X - orig.X
  let dy := r2.Min.Y - orig.Y
  (r2, ⟨sp.X + dx, sp.Y + dy⟩)

/-- Go `draw.Draw(dst, r, src, sp, draw.Src)` on an image object, for a source with the
colour model of the destination: every pixel of the clipped rectangle is replaced by
the source pixel aligned with it.  The case of two colour models is
`draw.DrawImageTyped`. -/
def draw.DrawImage (dst : image.Image) (r : image.Rectangle) (src : image.Image)
    (sp : image.Point) : image.Image :=
  let c := draw.clip dst.Bounds r src.Bounds sp
  if c.1.Empty then dst
  else
    { dst with
      Pix := fun x y =>
        if (image.Point.mk x y).In c.1 then
          src.At (c.2.X + (x - c.1.Min.X)) (c.2.Y + (y - c.1.Min.Y))
        else dst.Pix x y }

/-- Go `draw.Draw(dst, r, src, sp, draw.Src)` through a `draw.Image` reference. -/
def draw.Draw (h : Heap) (dst : Ref) (r : image.Rectangle) (src : image.Image)
    (sp : image.Point) : Heap :=
  { h with cell := fun q => if q = dst then draw.DrawImage (h.cell dst) r src sp else h.cell q }

/-! ## Package `binpacker` (external collaborator) -/

/-- Go `binpacker.Rect`. -/
structure binpacker.Rect where
  X : Int
  Y : Int
  Width : Int
  Height : Int
deriving DecidableEq, Repr

/-- The interface of `binpacker` that `atlas.go` uses: `binpacker.New(width, height)`
and `(*Packer).Insert(width, height)`, which answers a rectangle and an error and
may change the packer. -/
structure binpacker.Packer where
  State : Type
  New : Int → Int → State
  Insert : State → Int → Int → (binpacker.Rect × Option String) × State

/-- The region of the bin that a packer rectangle covers. -/
def binpacker.Rect.toRectangle (r : binpacker.Rect) : image.Rectangle :=
  ⟨⟨r.X, r.Y⟩, ⟨r.X + r.Width, r.Y + r.Height⟩⟩

/-- The rectangles a packer hands out, in order, for a sequence of `Insert` requests
(failed requests hand out nothing). -/
def binpacker.Packer.run (P : binpacker.Packer) (s : P.State) :
    List (Int × Int) → List binpacker.Rect
  | [] => []
  | (w, h) :: rest =>
    match (P.Insert s w h).1.2 with
    | none => (P.Insert s w h).1.1 :: binpacker.Packer.run P (P.Insert s w h).2 rest
    | some _ => binpacker.Packer.run P (P.Insert s w h).2 rest

/-! ## `atlas.go` -/

/-- Go `type subImage struct { draw.Image; bounds image.Rectangle }`. -/
structure subImage where
  Image : Ref
  bounds : image.Rectangle
deriving DecidableEq, Repr

/-- Go `func (i subImage) Bounds() image.Rectangle`. -/
def subImage.Bounds (i : subImage) : image.Rectangle := i.bounds

/-- The method `At` of `subImage`, promoted from the embedded `draw.Image`. -/
def subImage.At (h : Heap) (i : subImage) (x y : Int) : color.NRGBA := h.At i.Image x y

/-- The method `Set` of `subImage`, promoted from the embedded `draw.Image`. -/
def subImage.Set (h : Heap) (i : subImage) (x y : Int) (c : color.NRGBA) : Heap :=
  h.Set i.Image x y c

/-- Go `type SubImage struct { draw.Image; ID string }`; the embedded interface value
is `nil` (`none`) or a `subImage`. -/
structure SubImage where
  Image : Option subImage
  ID : String
deriving DecidableEq, Repr

/-- The zero value `SubImage{}`. -/
def SubImage.zero : SubImage := { Image := none, ID := "" }

/-- The method `Bounds` of `SubImage`, promoted from the embedded image
(`none` when the embedded interface is `nil`). -/
def SubImage.Bounds (s : SubImage) : Option image.Rectangle := s.Image.map subImage.Bounds

/-- Go `type Atlas struct { draw.Image; SubImages []SubImage; packer *binpacker.Packer }`. -/
structure Atlas (P : binpacker.Packer) where
  Image : Ref
  SubImages : List SubImage
  packer : P.State

variable {P : binpacker.Packer}

/-- The method `Bounds` of `Atlas`, promoted from the embedded `draw.Image`. -/
def Atlas.Bounds (h : Heap) (a : Atlas P) : image.Rectangle := h.Bounds a.Image

/-- The method `At` of `Atlas`, promoted from the embedded `draw.Image`. -/
def Atlas.At (h : Heap) (a : Atlas P) (x y : Int) : color.NRGBA := h.At a.Image x y

/-- The method `Set` of `Atlas`, promoted from the embedded `draw.Image`. -/
def Atlas.Set (h : Heap) (a : Atlas P) (x y : Int) (c : color.NRGBA) : Heap :=
  h.Set a.Image x y c

/-- Go `func New(size int) *Atlas`: the atlas that it returns; whether it returns is
`New.run`. -/
def New (P : binpacker.Packer) (h : Heap) (size : Int) : Atlas P × Heap :=
  let packer := P.New size size
  let m := h.alloc (image.NewNRGBA (image.Rect 0 0 size size))
  ({ Image := m.1, SubImages := [], packer := packer }, m.2)

/-- Go `func NewFromImage(atlas draw.Image) *Atlas`. -/
def NewFromImage (P : binpacker.Packer) (h : Heap) (atlas : Ref) : Atlas P :=
  let packer := P.New (h.Bounds atlas).Dx (h.Bounds atlas).Dy
  { Image := atlas, SubImages := [], packer := packer }

/-- The loop of `GetSubImageByID` over the elements of `SubImages`, in index order. -/
def GetSubImageByID.loop (id : String) : List SubImage → SubImage × Option String
  | [] => (SubImage.zero, some ("no SubImage with ID '" ++ id ++ "' found"))
  | s :: rest => if s.ID = id then (s, none) else GetSubImageByID.loop id rest

/-- Go `func (a *Atlas) GetSubImageByID(id string) (SubImage, error)`. -/
def Atlas.GetSubImageByID (a : Atlas P) (id : String) : SubImage × Option String :=
  GetSubImageByID.loop id a.SubImages

/-- What a call of `Add` leaves behind: the two results, the atlas and the heap. -/
structure AddResult (P : binpacker.Packer) where
  sub : SubImage
  err : Option String
  atlas : Atlas P
  heap : Heap

/-- Go `func (a *Atlas) Add(id string, img image.Image) (SubImage, error)`, for an
`img` with the colour model of the surface; the case of two colour models is
`Atlas.AddTyped`. -/
def Atlas.Add (h : Heap) (a : Atlas P) (id : String) (img : image.Image) : AddResult P :=
  let ins := P.Insert a.packer img.Bounds.Dx img.Bounds.Dy
  let rect := ins.1.1
  match ins.1.2 with
  | some e =>
    { sub := SubImage.zero
      err := some ("unable to add image to atlas: " ++ e)
      atlas := { a with packer := ins.2 }
      heap := h }
  | none =>
    let bmin := (h.Bounds a.Image).Min.Add (image.Pt rect.X rect.Y)
    let bounds : image.Rectangle := ⟨bmin, bmin.Add (image.Pt rect.Width rect.Height)⟩
    let h1 := draw.Draw h a.Image bounds img img.Bounds.Min
    let sub : SubImage := { Image := some { Image := a.Image, bounds := bounds }, ID := id }
    { sub := sub
      err := none
      atlas := { a with SubImages := a.SubImages ++ [sub], packer := ins.2 }
      heap := h1 }

/-- A sequence of `Add` calls on one atlas, whatever each call answers. -/
def Atlas.addAll (h : Heap) (a : Atlas P) : List (String × image.Image) → Atlas P × Heap
  | [] => (a, h)
  | (id, img) :: rest =>
    Atlas.addAll (Atlas.Add h a id img).heap (Atlas.Add h a id img).atlas rest

/-- The sizes that a sequence of `Add` calls requests from the packer. -/
def requests (ops : List (String × image.Image)) : List (Int × Int) :=
  ops.map fun op => (op.2.Bounds.Dx, op.2.Bounds.Dy)

/-! ## A sample packer, for concrete evaluations -/

/-- A sample implementation of the packer interface: rectangles are placed side by
side on the top edge of the bin, from left to right.  It is used for concrete
evaluations only; no general statement depends on it. -/
def rowPacker : binpacker.Packer where
  State := Int × Int × Int
  New := fun w h => (w, h, 0)
  Insert := fun s w h =>
    if 0 < w ∧ 0 < h ∧ s.2.2 + w ≤ s.1 ∧ h ≤ s.2.1 then
      ((⟨s.2.2, 0, w, h⟩, none), (s.1, s.2.1, s.2.2 + w))
    else ((⟨0, 0, 0, 0⟩, some "no more space"), s)

/-- The heap with no image allocated yet. -/
def Heap.empty : Heap := { cell := fun _ => image.NewNRGBA image.ZR, next := 0 }

/-- An image of one colour with the given bounds. -/
def image.uniform (r : image.Rectangle) (c : color.NRGBA) : image.Image :=
  { Rect := r, Pix := fun _ _ => c }

/-- Sample colour. -/
def color.red : color.NRGBA := ⟨255, 0, 0, 255⟩

/-- Sample colour. -/
def color.green : color.NRGBA := ⟨0, 255, 0, 255⟩

/-- Sample colour. -/
def color.blue : color.NRGBA := ⟨0, 0, 255, 255⟩

/-- Three `Add` calls, two of them with the same id. -/
def sampleOps : List (String × image.Image) :=
  [("a", image.uniform (image.Rect 0 0 2 2) color.red),
   ("b", image.uniform (image.Rect 0 0 1 1) color.green),
   ("b", image.uniform (image.Rect 5 5 6 7) color.blue)]

/-- The atlas `New(4)` after the calls of `sampleOps`, with its heap. -/
def sampleRun : Atlas rowPacker × Heap :=
  Atlas.addAll (New rowPacker Heap.empty 4).2 (New rowPacker Heap.empty 4).1 sampleOps

/-- The atlas `New(4)` on the empty heap, with its heap. -/
def sampleFresh : Atlas rowPacker × Heap := New rowPacker Heap.empty 4

/-- A red image of 5 by 5 pixels, too large for `sampleFresh`. -/
def sampleBig : image.Image := image.uniform (image.Rect 0 0 5 5) color.red

/-- A red image of 2 by 2 pixels. -/
def sampleSmall : image.Image := image.uniform (image.Rect 0 0 2 2) color.red

/-- A green image of one pixel. -/
def sampleDot : image.Image := image.uniform (image.Rect 0 0 1 1) color.green

/-- The call `Add("a", sampleSmall)` on `sampleFresh`. -/
def sampleOne : AddResult rowPacker := sampleFresh.1.Add sampleFresh.2 "a" sampleSmall

/-- The call `Add("b", sampleDot)` that follows `sampleOne`. -/
def sampleTwo : AddResult rowPacker := sampleOne.atlas.Add sampleOne.heap "b" sampleDot

/-! ## Notions used in the statements -/

/-- The rectangle that `Add` computes from the surface origin and the packer
rectangle (`bounds.Min` and `bounds.Max` in the source). -/
def placed (o : image.Point) (r : binpacker.Rect) : image.Rectangle :=
  ⟨o.Add (image.Pt r.X r.Y), (o.Add (image.Pt r.X r.Y)).Add (image.Pt r.Width r.Height)⟩

/-- The proposition `Fresh P h a W H`: the atlas `a`, with heap `h`, is what `New` or
`NewFromImage` returns, and its packer was created for a bin of `W` by `H`. -/
inductive Fresh (P : binpacker.Packer) : Heap → Atlas P → Int → Int → Prop
  | new (h : Heap) (size : Int) : Fresh P (New P h size).2 (New P h size).1 size size
  | fromImage (h : Heap) (atlas : Ref) :
      Fresh P h (NewFromImage P h atlas) (h.Bounds atlas).Dx (h.Bounds atlas).Dy

/-- The results `(SubImage, error)` of a sequence of `Add` calls, in call order. -/
def Atlas.addResults (h : Heap) (a : Atlas P) :
    List (String × image.Image) → List (SubImage × Option String)
  | [] => []
  | (id, img) :: rest =>
    ((Atlas.Add h a id img).sub, (Atlas.Add h a id img).err) ::
      Atlas.addResults (Atlas.Add h a id img).heap (Atlas.Add h a id img).atlas rest

/-- The state of a packer after a sequence of `Insert` requests. -/
def binpacker.Packer.after (P : binpacker.Packer) (s : P.State) : List (Int × Int) → P.State
  | [] => s
  | (w, h) :: rest => binpacker.Packer.after P (P.Insert s w h).2 rest

/-- The requests of a sequence that the packer granted, each with the rectangle it
handed out, in order. -/
def binpacker.Packer.runLog (P : binpacker.Packer) (s : P.State) :
    List (Int × Int) → List ((Int × Int) × binpacker.Rect)
  | [] => []
  | (w, h) :: rest =>
    match (P.Insert s w h).1.2 with
    | none => ((w, h), (P.Insert s w h).1.1) :: binpacker.Packer.runLog P (P.Insert s w h).2 rest
    | some _ => binpacker.Packer.runLog P (P.Insert s w h).2 rest

/-- A packer rectangle does not exceed a bin of `W` by `H`: it starts at or after the
origin and ends at or before the far edges. -/
def binpacker.Rect.inBin (r : binpacker.Rect) (W H : Int) : Bool :=
  decide (0 ≤ r.X) && decide (0 ≤ r.Y) &&
    decide (r.X + r.Width ≤ W) && decide (r.Y + r.Height ≤ H)

/-- The packer contract on the granted requests of one instance with a bin of `W` by
`H`: every rectangle has the requested size and lies inside the bin, and no two
rectangles overlap. -/
def binpacker.Contract (W H : Int) (log : List ((Int × Int) × binpacker.Rect)) : Prop :=
  (∀ qr ∈ log, qr.2.Width = qr.1.1 ∧ qr.2.Height = qr.1.2 ∧ qr.2.inBin W H = true) ∧
  (log.map Prod.snd).Pairwise (fun r s => r.toRectangle.Overlaps s.toRectangle = false)

/-- The number of pixels of a rectangle: `Dx() * Dy()`, and 0 when it is empty. -/
def image.Rectangle.area (r : image.Rectangle) : Int :=
  if r.Empty then 0 else r.Dx * r.Dy

/-- The pixels of a rectangle, as a finite set of coordinates. -/
def image.Rectangle.cells (r : image.Rectangle) : Finset (Int × Int) :=
  Finset.Ico r.Min.X r.Max.X ×ˢ Finset.Ico r.Min.Y r.Max.Y

/-- A blue image of 4 by 4 pixels, as large as `sampleFresh`. -/
def sampleFull : image.Image := image.uniform (image.Rect 0 0 4 4) color.blue

/-- Two `Add` calls of a one-pixel image, for an atlas of one pixel. -/
def sampleDots : List (String × image.Image) := [("a", sampleDot), ("b", sampleDot)]

/-! ## Colour models and the conversion in `draw.Draw` -/

/-- The colour models of the 8-bit images considered: Go `color.NRGBAModel` and
`color.RGBAModel`. -/
inductive color.Model where
  | NRGBAModel
  | RGBAModel
deriving DecidableEq, Repr

/-- A Go colour value `color.NRGBA{R, G, B, A}` or `color.RGBA{R, G, B, A}`: the model
that types it and its four channels. -/
structure color.Color where
  Model : color.Model
  Chan : color.NRGBA
deriving DecidableEq, Repr

/-- Go `Color.RGBA()` of `color.NRGBA` and `color.RGBA`: the 16-bit alpha-premultiplied
channels. -/
def color.Color.RGBA (c : color.Color) : Nat × Nat × Nat × Nat :=
  match c.Model with
  | color.Model.RGBAModel =>
    (c.Chan.R ||| (c.Chan.R <<< 8), c.Chan.G ||| (c.Chan.G <<< 8),
      c.Chan.B ||| (c.Chan.B <<< 8), c.Chan.A ||| (c.Chan.A <<< 8))
  | color.Model.NRGBAModel =>
    ((c.Chan.R ||| (c.Chan.R <<< 8)) * c.Chan.A / 0xff,
      (c.Chan.G ||| (c.Chan.G <<< 8)) * c.Chan.A / 0xff,
      (c.Chan.B ||| (c.Chan.B <<< 8)) * c.Chan.A / 0xff,
      c.Chan.A ||| (c.Chan.A <<< 8))

/-- Go `color.rgbaModel`, the conversion of `color.RGBAModel`. -/
def color.rgbaModel (c : color.Color) : color.Color :=
  match c.Model with
  | color.Model.RGBAModel => c
  | color.Model.NRGBAModel =>
    ⟨color.Model.RGBAModel,
      ⟨(c.RGBA.1 >>> 8) % 256, (c.RGBA.2.1 >>> 8) % 256, (c.RGBA.2.2.1 >>> 8) % 256,
        (c.RGBA.2.2.2 >>> 8) % 256⟩⟩

/-- Go `color.nrgbaModel`, the conversion of `color.NRGBAModel`. -/
def color.nrgbaModel (c : color.Color) : color.Color :=
  match c.Model with
  | color.Model.NRGBAModel => c
  | color.Model.RGBAModel =>
    if c.RGBA.2.2.2 = 0xffff then
      ⟨color.Model.NRGBAModel,
        ⟨(c.RGBA.1 >>> 8) % 256, (c.RGBA.2.1 >>> 8) % 256, (c.RGBA.2.2.1 >>> 8) % 256, 0xff⟩⟩
    else if c.RGBA.2.2.2 = 0 then ⟨color.Model.NRGBAModel, ⟨0, 0, 0, 0⟩⟩
    else
      ⟨color.Model.NRGBAModel,
        ⟨((c.RGBA.1 * 0xffff / c.RGBA.2.2.2) >>> 8) % 256,
          ((c.RGBA.2.1 * 0xffff / c.RGBA.2.2.2) >>> 8) % 256,
          ((c.RGBA.2.2.1 * 0xffff / c.RGBA.2.2.2) >>> 8) % 256,
          (c.RGBA.2.2.2 >>> 8) % 256⟩⟩

/-- Go `Model.Convert` of the two models. -/
def color.Model.Convert (m : color.Model) (c : color.Color) : color.Color :=
  match m with
  | color.Model.NRGBAModel => color.nrgbaModel c
  | color.Model.RGBAModel => color.rgbaModel c

/-- Go `draw.Draw(dst, r, src, sp, draw.Src)` on image objects of the colour models
`dm` and `sm`: every pixel of the clipped rectangle is replaced by the source colour
aligned with it, converted to the model of the destination.  An image object holds the
four channels of each pixel, as `*image.NRGBA` and `*image.RGBA` both do. -/
def draw.DrawImageTyped (dm : color.Model) (dst : image.Image) (r : image.Rectangle)
    (sm : color.Model) (src : image.Image) (sp : image.Point) : image.Image :=
  let c := draw.clip dst.Bounds r src.Bounds sp
  if c.1.Empty then dst
  else
    { dst with
      Pix := fun x y =>
        if (image.Point.mk x y).In c.1 then
          (dm.Convert ⟨sm, src.At (c.2.X + (x - c.1.Min.X)) (c.2.Y + (y - c.1.Min.Y))⟩).Chan
        else dst.Pix x y }

/-- Go `draw.Draw(dst, r, src, sp, draw.Src)` through a `draw.Image` reference, `kind`
giving the colour model of each image object. -/
def draw.DrawTyped (kind : Ref → color.Model) (h : Heap) (dst : Ref) (r : image.Rectangle)
    (sm : color.Model) (src : image.Image) (sp : image.Point) : Heap :=
  { h with
    cell := fun q =>
      if q = dst then draw.DrawImageTyped (kind dst) (h.cell dst) r sm src sp else h.cell q }

/-- Go `func (a *Atlas) Add(id string, img image.Image) (SubImage, error)` with the
colour models of the image objects (`kind`) and of `img` (`sm`). -/
def Atlas.AddTyped (kind : Ref → color.Model) (h : Heap) (a : Atlas P) (id : String)
    (sm : color.Model) (img : image.Image) : AddResult P :=
  let ins := P.Insert a.packer img.Bounds.Dx img.Bounds.Dy
  let rect := ins.1.1
  match ins.1.2 with
  | some e =>
    { sub := SubImage.zero
      err := some ("unable to add image to atlas: " ++ e)
      atlas := { a with packer := ins.2 }
      heap := h }
  | none =>
    let bmin := (h.Bounds a.Image).Min.Add (image.Pt rect.X rect.Y)
    let bounds : image.Rectangle := ⟨bmin, bmin.Add (image.Pt rect.Width rect.Height)⟩
    let h1 := draw.DrawTyped kind h a.Image bounds sm img img.Bounds.Min
    let sub : SubImage := { Image := some { Image := a.Image, bounds := bounds }, ID := id }
    { sub := sub
      err := none
      atlas := { a with SubImages := a.SubImages ++ [sub], packer := ins.2 }
      heap := h1 }

/-- The colour value that `At(x, y)` answers on a `draw.Image` reference. -/
def Heap.ColorAt (kind : Ref → color.Model) (h : Heap) (r : Ref) (x y : Int) : color.Color :=
  ⟨kind r, h.At r x y⟩

/-- The colour value that `At(x, y)` answers on a view, promoted from the embedded
`draw.Image`. -/
def subImage.ColorAt (kind : Ref → color.Model) (h : Heap) (i : subImage) (x y : Int) :
    color.Color :=
  Heap.ColorAt kind h i.Image x y

/-- The colour value that `At(x, y)` answers on a source image of model `sm`. -/
def image.Image.ColorAt (sm : color.Model) (p : image.Image) (x y : Int) : color.Color :=
  ⟨sm, p.At x y⟩

/-- A heap whose one image object, at address 0, has the bounds `(0,0)-(1,1)` and a
zero pixel. -/
def sampleHeapOne : Heap := (Heap.empty.alloc (image.NewNRGBA (image.Rect 0 0 1 1))).2

/-- Every image object is an `*image.RGBA`. -/
def sampleKindRGBA : Ref → color.Model := fun _ => color.Model.RGBAModel

/-- The atlas `NewFromImage` on the image object of `sampleHeapOne`. -/
def sampleAdopted : Atlas rowPacker := NewFromImage rowPacker sampleHeapOne 0

/-- An `*image.NRGBA` of one pixel `color.NRGBA{1, 0, 0, 1}`. -/
def sampleFaint : image.Image := image.uniform (image.Rect 0 0 1 1) ⟨1, 0, 0, 1⟩

/-- The call `Add("f", sampleFaint)` on `sampleAdopted`, the surface being an
`*image.RGBA` and the source an `*image.NRGBA`. -/
def sampleMixed : AddResult rowPacker :=
  sampleAdopted.AddTyped sampleKindRGBA sampleHeapOne "f" color.Model.NRGBAModel sampleFaint

/-! ## `New` as it runs -/

/-- Go `image.mul3NonNeg`: the product of three numbers as an `int`, or -1 when one of
them is negative or the product overflows. -/
def image.mul3NonNeg (x y z : Int) : Int :=
  if x < 0 ∨ y < 0 ∨ z < 0 then -1
  else if 18446744073709551616 ≤ x * y then -1
  else if 18446744073709551616 ≤ (x * y) % 18446744073709551616 * z then -1
  else if 9223372036854775808 ≤ (x * y) % 18446744073709551616 * z then -1
  else (x * y) % 18446744073709551616 * z

/-- Go `image.pixelBufferLength`: `none` when it panics (`Rectangle has huge or negative
dimensions`). -/
def image.pixelBufferLength (bytesPerPixel : Int) (r : image.Rectangle) : Option Int :=
  if image.mul3NonNeg bytesPerPixel r.Dx r.Dy < 0 then none
  else some (image.mul3NonNeg bytesPerPixel r.Dx r.Dy)

/-- Go `image.NewNRGBA` as it runs: `none` when `pixelBufferLength` panics or when the
runtime does not make a pixel buffer of that length (`make` says which lengths it
grants). -/
def image.NewNRGBA.run (make : Int → Bool) (r : image.Rectangle) : Option image.Image :=
  match image.pixelBufferLength 4 r with
  | none => none
  | some n => if make n then some (image.NewNRGBA r) else none

/-- Go `func New(size int) *Atlas` as it runs: `none` when `image.NewNRGBA` panics,
otherwise the atlas and heap of `New`. -/
def New.run (make : Int → Bool) (P : binpacker.Packer) (h : Heap) (size : Int) :
    Option (Atlas P × Heap) :=
  match image.NewNRGBA.run make (image.Rect 0 0 size size) with
  | none => none
  | some _ => some (New P h size)

/-! ## Lookup -/

theorem loop_append_hit (id : String) (pre : List SubImage) (s : SubImage)
    (post : List SubImage) (hpre : ∀ t ∈ pre, t.ID ≠ id) (hs : s.ID = id) :
    GetSubImageByID.loop id (pre ++ s :: post) = (s, none) := by
  induction pre with
  | nil => simp [GetSubImageByID.loop, hs]
  | cons t pre ih =>
    have ht : t.ID ≠ id := hpre t (List.mem_cons_self _ _)
    have hrest : ∀ u ∈ pre, u.ID ≠ id := fun u hu => hpre u (List.mem_cons_of_mem _ hu)
    simp [GetSubImageByID.loop, ht, ih hrest]

theorem loop_miss (id : String) (l : List SubImage) (hl : ∀ t ∈ l, t.ID ≠ id) :
    GetSubImageByID.loop id l
      = (SubImage.zero, some ("no SubImage with ID '" ++ id ++ "' found")) := by
  induction l with
  | nil => rfl
  | cons t l ih =>
    have ht : t.ID ≠ id := hl t (List.mem_cons_self _ _)
    have hrest : ∀ u ∈ l, u.ID ≠ id := fun u hu => hl u (List.mem_cons_of_mem _ hu)
    simp [GetSubImageByID.loop, ht, ih hrest]

theorem loop_hit_index (id : String) (l : List SubImage) (h : ∃ s ∈ l, s.ID = id) :
    ∃ (i : Nat) (hi : i < l.length),
      l[i].ID = id ∧
      (∀ (j : Nat) (hj : j < l.length), j < i → l[j].ID ≠ id) ∧
      GetSubImageByID.loop id l = (l[i], none) := by
  induction l with
  | nil => simp at h
  | cons t l ih =>
    by_cases ht : t.ID = id
    · refine ⟨0, by simp, by simpa using ht, ?_, by simp [GetSubImageByID.loop, ht]⟩
      intro j _ hj
      omega
    · have h2 : ∃ s ∈ l, s.ID = id := by
        obtain ⟨s, hs, hid⟩ := h
        rcases List.mem_cons.1 hs with rfl | hs
        · exact absurd hid ht
        · exact ⟨s, hs, hid⟩
      obtain ⟨i, hi, h1, h2, h3⟩ := ih h2
      refine ⟨i + 1, by simpa using hi, by simpa using h1, ?_, ?_⟩
      · intro j hj hji
        cases j with
        | zero => simpa using ht
        | succ j =>
          have := h2 j (by simpa using hj) (by omega)
          simpa using this
      · simp [GetSubImageByID.loop, ht, h3]

theorem loop_err_iff (id : String) (l : List SubImage) :
    (GetSubImageByID.loop id l).2 ≠ none ↔ ∀ s ∈ l, s.ID ≠ id := by
  constructor
  · intro herr s hs hid
    obtain ⟨i, hi, _, _, h3⟩ := loop_hit_index id l ⟨s, hs, hid⟩
    rw [h3] at herr
    exact herr rfl
  · intro hall
    rw [loop_miss id l hall]
    simp

/-- C1: when some element of `SubImages` has the queried id, `GetSubImageByID`
answers a nil error and the element at the smallest index whose `ID` is the id,
whatever the later elements carry. -/
theorem GetSubImageByID_first_match (a : Atlas P) (id : String)
    (h : ∃ s ∈ a.SubImages, s.ID = id) :
    ∃ (i : Nat) (hi : i < a.SubImages.length),
      a.SubImages[i].ID = id ∧
      (∀ (j : Nat) (hj : j < a.SubImages.length), j < i → a.SubImages[j].ID ≠ id) ∧
      a.GetSubImageByID id = (a.SubImages[i], none) :=
  loop_hit_index id a.SubImages h

/-- Witness for C1: the sample atlas holds two views with id `b`; the lookup answers
the earlier one. -/
theorem GetSubImageByID_first_match_witness :
    (∃ s ∈ sampleRun.1.SubImages, s.ID = "b") ∧
    ∃ (i : Nat) (hi : i < sampleRun.1.SubImages.length),
      sampleRun.1.SubImages[i].ID = "b" ∧
      (∀ (j : Nat) (hj : j < sampleRun.1.SubImages.length), j < i →
        sampleRun.1.SubImages[j].ID ≠ "b") ∧
      sampleRun.1.GetSubImageByID "b" = (sampleRun.1.SubImages[i], none) :=
  ⟨by decide, GetSubImageByID_first_match sampleRun.1 "b" (by decide)⟩

/-- C2: `GetSubImageByID` answers an error exactly when no element of `SubImages` has
the queried id; it then answers the zero `SubImage` and the error text
`no SubImage with ID '<id>' found`. -/
theorem GetSubImageByID_error_iff (a : Atlas P) (id : String) :
    ((a.GetSubImageByID id).2 ≠ none ↔ ∀ s ∈ a.SubImages, s.ID ≠ id) ∧
    ((a.GetSubImageByID id).2 ≠ none →
      a.GetSubImageByID id
        = (SubImage.zero, some ("no SubImage with ID '" ++ id ++ "' found"))) :=
  ⟨loop_err_iff id a.SubImages,
    fun herr => loop_miss id a.SubImages ((loop_err_iff id a.SubImages).1 herr)⟩

/-! ## `Add`: the two outcomes -/

theorem Add_of_error (h : Heap) (a : Atlas P) (id : String) (img : image.Image) (e : String)
    (hins : (P.Insert a.packer img.Bounds.Dx img.Bounds.Dy).1.2 = some e) :
    a.Add h id img =
      ⟨SubImage.zero, some ("unable to add image to atlas: " ++ e),
        ⟨a.Image, a.SubImages, (P.Insert a.packer img.Bounds.Dx img.Bounds.Dy).2⟩, h⟩ := by
  unfold Atlas.Add
  simp only [hins]

theorem Add_of_ok (h : Heap) (a : Atlas P) (id : String) (img : image.Image)
    (hins : (P.Insert a.packer img.Bounds.Dx img.Bounds.Dy).1.2 = none) :
    a.Add h id img =
      ⟨⟨some ⟨a.Image, placed (h.Bounds a.Image).Min
          (P.Insert a.packer img.Bounds.Dx img.Bounds.Dy).1.1⟩, id⟩,
        none,
        ⟨a.Image,
          a.SubImages ++ [⟨some ⟨a.Image, placed (h.Bounds a.Image).Min
            (P.Insert a.packer img.Bounds.Dx img.Bounds.Dy).1.1⟩, id⟩],
          (P.Insert a.packer img.Bounds.Dx img.Bounds.Dy).2⟩,
        draw.Draw h a.Image
          (placed (h.Bounds a.Image).Min (P.Insert a.packer img.Bounds.Dx img.Bounds.Dy).1.1)
          img img.Bounds.Min⟩ := by
  unfold Atlas.Add
  simp only [hins, placed]

theorem Add_Image (h : Heap) (a : Atlas P) (id : String) (img : image.Image) :
    (a.Add h id img).atlas.Image = a.Image := by
  cases hins : (P.Insert a.packer img.Bounds.Dx img.Bounds.Dy).1.2 with
  | none => rw [Add_of_ok h a id img hins]
  | some e => rw [Add_of_error h a id img e hins]

theorem Add_packer (h : Heap) (a : Atlas P) (id : String) (img : image.Image) :
    (a.Add h id img).atlas.packer = (P.Insert a.packer img.Bounds.Dx img.Bounds.Dy).2 := by
  cases hins : (P.Insert a.packer img.Bounds.Dx img.Bounds.Dy).1.2 with
  | none => rw [Add_of_ok h a id img hins]
  | some e => rw [Add_of_error h a id img e hins]

theorem DrawImage_Rect (dst : image.Image) (r : image.Rectangle) (src : image.Image)
    (sp : image.Point) : (draw.DrawImage dst r src sp).Rect = dst.Rect := by
  simp only [draw.DrawImage]
  split <;> rfl

theorem Draw_Bounds (h : Heap) (dst : Ref) (r : image.Rectangle) (src : image.Image)
    (sp : image.Point) (q : Ref) : (draw.Draw h dst r src sp).Bounds q = h.Bounds q := by
  unfold draw.Draw Heap.Bounds image.Image.Bounds
  by_cases hq : q = dst
  · simp [hq, DrawImage_Rect]
  · simp [hq]

theorem Add_Bounds (h : Heap) (a : Atlas P) (id : String) (img : image.Image) (q : Ref) :
    (a.Add h id img).heap.Bounds q = h.Bounds q := by
  cases hins : (P.Insert a.packer img.Bounds.Dx img.Bounds.Dy).1.2 with
  | none => rw [Add_of_ok h a id img hins]; exact Draw_Bounds _ _ _ _ _ _
  | some e => rw [Add_of_error h a id img e hins]

theorem addAll_Image (ops : List (String × image.Image)) (h : Heap) (a : Atlas P) :
    (a.addAll h ops).1.Image = a.Image := by
  induction ops generalizing h a with
  | nil => rfl
  | cons op ops ih =>
    obtain ⟨id, img⟩ := op
    simp only [Atlas.addAll]
    rw [ih, Add_Image]

theorem addAll_Bounds (ops : List (String × image.Image)) (h : Heap) (a : Atlas P) (q : Ref) :
    (a.addAll h ops).2.Bounds q = h.Bounds q := by
  induction ops generalizing h a with
  | nil => rfl
  | cons op ops ih =>
    obtain ⟨id, img⟩ := op
    simp only [Atlas.addAll]
    rw [ih, Add_Bounds]

/-- The views after a sequence of `Add` calls: the old ones, then one view per
rectangle the packer handed out, placed relative to the surface origin. -/
theorem addAll_SubImages_Bounds (ops : List (String × image.Image)) (h : Heap) (a : Atlas P) :
    (a.addAll h ops).1.SubImages.map SubImage.Bounds =
      a.SubImages.map SubImage.Bounds ++
        (P.run a.packer (requests ops)).map
          (fun r => some (placed (h.Bounds a.Image).Min r)) := by
  induction ops generalizing h a with
  | nil => simp [Atlas.addAll, requests, binpacker.Packer.run]
  | cons op ops ih =>
    obtain ⟨id, img⟩ := op
    simp only [Atlas.addAll, requests, List.map_cons, binpacker.Packer.run]
    rw [ih, Add_Bounds, Add_Image, Add_packer]
    cases hins : (P.Insert a.packer img.Bounds.Dx img.Bounds.Dy).1.2 with
    | none =>
      rw [Add_of_ok h a id img hins]
      simp [SubImage.Bounds, subImage.Bounds, requests]
    | some e =>
      rw [Add_of_error h a id img e hins]
      simp [requests]

theorem addAll_SubImages (ops : List (String × image.Image)) (h : Heap) (a : Atlas P) :
    (a.addAll h ops).1.SubImages =
      a.SubImages ++ ((a.addResults h ops).filter (fun r => r.2.isNone)).map Prod.fst := by
  induction ops generalizing h a with
  | nil => simp [Atlas.addAll, Atlas.addResults]
  | cons op ops ih =>
    obtain ⟨id, img⟩ := op
    simp only [Atlas.addAll, Atlas.addResults]
    rw [ih]
    cases hins : (P.Insert a.packer img.Bounds.Dx img.Bounds.Dy).1.2 with
    | none =>
      rw [Add_of_ok h a id img hins]
      simp
    | some e =>
      rw [Add_of_error h a id img e hins]
      simp

/-! ## Failure and success of `Add` -/

/-- C3: when the packer's `Insert` reports an error, `Add` answers the zero `SubImage`
and an error, `SubImages` is what it was before the call, and the heap of image
objects, hence every pixel of the atlas surface, is unchanged. -/
theorem Add_failed_atomic (h : Heap) (a : Atlas P) (id : String) (img : image.Image)
    (e : String) (hins : (P.Insert a.packer img.Bounds.Dx img.Bounds.Dy).1.2 = some e) :
    (a.Add h id img).sub = SubImage.zero ∧
    (a.Add h id img).err = some ("unable to add image to atlas: " ++ e) ∧
    (a.Add h id img).atlas.SubImages = a.SubImages ∧
    (a.Add h id img).atlas.Image = a.Image ∧
    (a.Add h id img).heap = h ∧
    ∀ x y : Int, (a.Add h id img).atlas.At (a.Add h id img).heap x y = a.At h x y := by
  rw [Add_of_error h a id img e hins]
  exact ⟨rfl, rfl, rfl, rfl, rfl, fun _ _ => rfl⟩

/-- Witness for C3: a 5 by 5 image does not fit the atlas `New(4)`. -/
theorem Add_failed_atomic_witness :
    (rowPacker.Insert sampleFresh.1.packer sampleBig.Bounds.Dx sampleBig.Bounds.Dy).1.2
      = some "no more space" ∧
    ((sampleFresh.1.Add sampleFresh.2 "big" sampleBig).sub = SubImage.zero ∧
    (sampleFresh.1.Add sampleFresh.2 "big" sampleBig).err
      = some ("unable to add image to atlas: " ++ "no more space") ∧
    (sampleFresh.1.Add sampleFresh.2 "big" sampleBig).atlas.SubImages
      = sampleFresh.1.SubImages ∧
    (sampleFresh.1.Add sampleFresh.2 "big" sampleBig).atlas.Image = sampleFresh.1.Image ∧
    (sampleFresh.1.Add sampleFresh.2 "big" sampleBig).heap = sampleFresh.2 ∧
    ∀ x y : Int,
      (sampleFresh.1.Add sampleFresh.2 "big" sampleBig).atlas.At
        (sampleFresh.1.Add sampleFresh.2 "big" sampleBig).heap x y
        = sampleFresh.1.At sampleFresh.2 x y) :=
  ⟨by decide, Add_failed_atomic sampleFresh.2 sampleFresh.1 "big" sampleBig "no more space"
    (by decide)⟩

/-- C10: when the packer's `Insert` succeeds, `Add` answers a nil error and a view
with the given id, `SubImages` becomes the old list followed by that one view, and
after any further calls `SubImages` is the old list, that view, and then the views
answered by the later successful calls in call order. -/
theorem Add_ok_appends (h : Heap) (a : Atlas P) (id : String) (img : image.Image)
    (hins : (P.Insert a.packer img.Bounds.Dx img.Bounds.Dy).1.2 = none) :
    (a.Add h id img).err = none ∧
    (a.Add h id img).sub.ID = id ∧
    (a.Add h id img).atlas.SubImages = a.SubImages ++ [(a.Add h id img).sub] ∧
    ∀ rest : List (String × image.Image),
      ((a.Add h id img).atlas.addAll (a.Add h id img).heap rest).1.SubImages =
        a.SubImages ++ (a.Add h id img).sub ::
          (((a.Add h id img).atlas.addResults (a.Add h id img).heap rest).filter
            (fun r => r.2.isNone)).map Prod.fst := by
  refine ⟨?_, ?_, ?_, ?_⟩
  · rw [Add_of_ok h a id img hins]
  · rw [Add_of_ok h a id img hins]
  · rw [Add_of_ok h a id img hins]
  · intro rest
    rw [addAll_SubImages]
    rw [Add_of_ok h a id img hins]
    simp

/-- Witness for C10: a 2 by 2 image fits the atlas `New(4)`. -/
theorem Add_ok_appends_witness :
    (rowPacker.Insert sampleFresh.1.packer sampleSmall.Bounds.Dx sampleSmall.Bounds.Dy).1.2
      = none ∧
    ((sampleFresh.1.Add sampleFresh.2 "a" sampleSmall).err = none ∧
    (sampleFresh.1.Add sampleFresh.2 "a" sampleSmall).sub.ID = "a" ∧
    (sampleFresh.1.Add sampleFresh.2 "a" sampleSmall).atlas.SubImages
      = sampleFresh.1.SubImages ++ [(sampleFresh.1.Add sampleFresh.2 "a" sampleSmall).sub] ∧
    ∀ rest : List (String × image.Image),
      ((sampleFresh.1.Add sampleFresh.2 "a" sampleSmall).atlas.addAll
          (sampleFresh.1.Add sampleFresh.2 "a" sampleSmall).heap rest).1.SubImages =
        sampleFresh.1.SubImages ++ (sampleFresh.1.Add sampleFresh.2 "a" sampleSmall).sub ::
          (((sampleFresh.1.Add sampleFresh.2 "a" sampleSmall).atlas.addResults
              (sampleFresh.1.Add sampleFresh.2 "a" sampleSmall).heap rest).filter
            (fun r => r.2.isNone)).map Prod.fst) :=
  ⟨by decide, Add_ok_appends sampleFresh.2 sampleFresh.1 "a" sampleSmall (by decide)⟩

/-! ## Geometry of placed rectangles -/

theorem placed_Overlaps (o : image.Point) (r s : binpacker.Rect) :
    (placed o r).Overlaps (placed o s) = r.toRectangle.Overlaps s.toRectangle := by
  simp only [placed, binpacker.Rect.toRectangle, image.Rectangle.Overlaps,
    image.Rectangle.Empty, image.Point.Add, image.Pt]
  rw [Bool.eq_iff_iff]
  simp only [Bool.and_eq_true, Bool.not_eq_true', Bool.or_eq_false_iff, decide_eq_false_iff_not,
    decide_eq_true_eq]
  constructor <;> intro hh <;> omega

theorem Overlaps_comm (r s : image.Rectangle) : r.Overlaps s = s.Overlaps r := by
  simp only [image.Rectangle.Overlaps]
  rw [Bool.eq_iff_iff]
  simp only [Bool.and_eq_true, Bool.not_eq_true', decide_eq_true_eq]
  constructor <;> intro hh <;> simp [hh]

theorem placed_In (o m : image.Point) (r : binpacker.Rect) (W H : Int)
    (hm : ∀ x y : Int, 0 ≤ x → x ≤ W → 0 ≤ y → y ≤ H → 0 < W → 0 < H →
      o.X + x ≤ m.X ∧ o.Y + y ≤ m.Y)
    (hr : r.toRectangle.In ⟨⟨0, 0⟩, ⟨W, H⟩⟩ = true) :
    (placed o r).In ⟨o, m⟩ = true := by
  simp only [placed, binpacker.Rect.toRectangle, image.Rectangle.In,
    image.Rectangle.Empty, image.Point.Add, image.Pt] at hr ⊢
  split at hr
  · rename_i he
    simp only [Bool.or_eq_true, decide_eq_true_eq] at he
    rw [if_pos]
    simp only [Bool.or_eq_true, decide_eq_true_eq]
    omega
  · rename_i he
    simp only [Bool.or_eq_true, decide_eq_true_eq, not_or, not_le] at he
    simp only [Bool.and_eq_true, decide_eq_true_eq] at hr
    have h1 := hm (r.X + r.Width) (r.Y + r.Height) (by omega) (by omega) (by omega) (by omega)
      (by omega) (by omega)
    split
    · rfl
    · simp only [Bool.and_eq_true, decide_eq_true_eq]
      omega

/-! ## Atlases as the constructors return them -/

theorem Fresh_SubImages {h : Heap} {a : Atlas P} {W H : Int} (hf : Fresh P h a W H) :
    a.SubImages = [] := by
  cases hf <;> rfl

theorem Fresh_packer {h : Heap} {a : Atlas P} {W H : Int} (hf : Fresh P h a W H) :
    a.packer = P.New W H := by
  cases hf <;> rfl

theorem Fresh_surface {h : Heap} {a : Atlas P} {W H : Int} (hf : Fresh P h a W H) :
    ∀ x y : Int, 0 ≤ x → x ≤ W → 0 ≤ y → y ≤ H → 0 < W → 0 < H →
      (h.Bounds a.Image).Min.X + x ≤ (h.Bounds a.Image).Max.X ∧
      (h.Bounds a.Image).Min.Y + y ≤ (h.Bounds a.Image).Max.Y := by
  cases hf with
  | new h0 size =>
    intro x y hx hxW hy hyH hW hH
    have hn : ¬ (0 > W) := by omega
    simp [New, Heap.alloc, Heap.Bounds, image.Image.Bounds, image.NewNRGBA, image.Rect, hn]
    omega
  | fromImage h0 r =>
    intro x y hx hxW hy hyH hW hH
    simp only [NewFromImage, image.Rectangle.Dx, image.Rectangle.Dy] at *
    omega

theorem getElem_of_map_Bounds (S : List SubImage) (L : List image.Rectangle)
    (hS : S.map SubImage.Bounds = L.map some) (i : Nat) (hi : i < S.length) :
    ∃ (hl : i < L.length) (v : subImage), S[i].Image = some v ∧ v.Bounds = L[i] := by
  have hlen : S.length = L.length := by
    have := congrArg List.length hS
    simpa using this
  have hl : i < L.length := by omega
  have h1 : (S.map SubImage.Bounds)[i]? = (L.map some)[i]? := by rw [hS]
  simp only [List.getElem?_map, List.getElem?_eq_getElem hi, List.getElem?_eq_getElem hl,
    Option.map_some'] at h1
  have h2 : S[i].Bounds = some L[i] := Option.some.inj h1
  unfold SubImage.Bounds at h2
  cases hv : S[i].Image with
  | none => rw [hv] at h2; simp at h2
  | some v =>
    rw [hv] at h2
    exact ⟨hl, v, rfl, by simpa using h2⟩

/-- The views of an atlas built by a constructor and `Add` calls are the packer's
rectangles, each placed at the surface origin. -/
theorem built_Bounds {h0 : Heap} {a0 : Atlas P} {W H : Int} (hf : Fresh P h0 a0 W H)
    (ops : List (String × image.Image)) :
    (a0.addAll h0 ops).1.SubImages.map SubImage.Bounds =
      ((P.run (P.New W H) (requests ops)).map (placed (h0.Bounds a0.Image).Min)).map some := by
  rw [addAll_SubImages_Bounds, Fresh_SubImages hf, Fresh_packer hf]
  simp

/-! ## Disjointness and containment -/

theorem built_disjoint (h0 : Heap) (a0 : Atlas P) (W H : Int)
    (ops : List (String × image.Image)) (hf : Fresh P h0 a0 W H)
    (hp : (P.run (P.New W H) (requests ops)).Pairwise
      (fun r s => r.toRectangle.Overlaps s.toRectangle = false)) :
    ∀ (i j : Nat) (hi : i < (a0.addAll h0 ops).1.SubImages.length)
      (hj : j < (a0.addAll h0 ops).1.SubImages.length), i ≠ j →
      ∃ v w : subImage,
        (a0.addAll h0 ops).1.SubImages[i].Image = some v ∧
        (a0.addAll h0 ops).1.SubImages[j].Image = some w ∧
        v.Bounds.Overlaps w.Bounds = false := by
  intro i j hi hj hij
  have hB := built_Bounds hf ops
  obtain ⟨hli, v, hv, hvb⟩ := getElem_of_map_Bounds _ _ hB i hi
  obtain ⟨hlj, w, hw, hwb⟩ := getElem_of_map_Bounds _ _ hB j hj
  refine ⟨v, w, hv, hw, ?_⟩
  rw [hvb, hwb]
  simp only [List.getElem_map, placed_Overlaps]
  rw [List.pairwise_iff_getElem] at hp
  simp only [List.length_map] at hli hlj
  rcases Nat.lt_or_gt_of_ne hij with hlt | hgt
  · exact hp i j hli hlj hlt
  · rw [Overlaps_comm]
    exact hp j i hlj hli hgt

/-- C4: on an atlas built by `New` or `NewFromImage` and any sequence of `Add` calls,
if the rectangles the packer handed out do not overlap one another, then the
`Bounds()` of any two distinct elements of `SubImages` do not overlap. -/
theorem views_disjoint (h0 : Heap) (a0 : Atlas P) (W H : Int)
    (ops : List (String × image.Image)) (hf : Fresh P h0 a0 W H)
    (hp : (P.run (P.New W H) (requests ops)).Pairwise
      (fun r s => r.toRectangle.Overlaps s.toRectangle = false)) :
    ∀ (i j : Nat) (hi : i < (a0.addAll h0 ops).1.SubImages.length)
      (hj : j < (a0.addAll h0 ops).1.SubImages.length), i ≠ j →
      ∃ v w : subImage,
        (a0.addAll h0 ops).1.SubImages[i].Image = some v ∧
        (a0.addAll h0 ops).1.SubImages[j].Image = some w ∧
        v.Bounds.Overlaps w.Bounds = false :=
  built_disjoint h0 a0 W H ops hf hp

/-- Witness for C4: the three views of the sample atlas. -/
theorem views_disjoint_witness :
    ((rowPacker.run (rowPacker.New 4 4) (requests sampleOps)).Pairwise
      (fun r s => r.toRectangle.Overlaps s.toRectangle = false)) ∧
    ∀ (i j : Nat) (hi : i < (sampleFresh.1.addAll sampleFresh.2 sampleOps).1.SubImages.length)
      (hj : j < (sampleFresh.1.addAll sampleFresh.2 sampleOps).1.SubImages.length), i ≠ j →
      ∃ v w : subImage,
        (sampleFresh.1.addAll sampleFresh.2 sampleOps).1.SubImages[i].Image = some v ∧
        (sampleFresh.1.addAll sampleFresh.2 sampleOps).1.SubImages[j].Image = some w ∧
        v.Bounds.Overlaps w.Bounds = false :=
  ⟨by decide, views_disjoint sampleFresh.2 sampleFresh.1 4 4 sampleOps
    (Fresh.new Heap.empty 4) (by decide)⟩

/-- C5: on an atlas built by `New` or `NewFromImage` (whatever the origin of the
adopted image) and any sequence of `Add` calls, if every rectangle the packer handed
out lies inside its bin, then the `Bounds()` of every element of `SubImages` lies
inside the `Bounds()` of the atlas surface. -/
theorem views_contained (h0 : Heap) (a0 : Atlas P) (W H : Int)
    (ops : List (String × image.Image)) (hf : Fresh P h0 a0 W H)
    (hp : ∀ r ∈ P.run (P.New W H) (requests ops),
      r.toRectangle.In ⟨⟨0, 0⟩, ⟨W, H⟩⟩ = true) :
    ∀ s ∈ (a0.addAll h0 ops).1.SubImages,
      ∃ v : subImage, s.Image = some v ∧
        v.Bounds.In ((a0.addAll h0 ops).1.Bounds (a0.addAll h0 ops).2) = true := by
  intro s hs
  obtain ⟨i, hi, rfl⟩ := List.getElem_of_mem hs
  have hB := built_Bounds hf ops
  obtain ⟨hli, v, hv, hvb⟩ := getElem_of_map_Bounds _ _ hB i hi
  refine ⟨v, hv, ?_⟩
  rw [hvb]
  simp only [List.getElem_map, Atlas.Bounds, addAll_Image, addAll_Bounds]
  simp only [List.length_map] at hli
  exact placed_In _ _ _ W H (Fresh_surface hf) (hp _ (List.getElem_mem hli))

/-- Witness for C5: the three views of the sample atlas. -/
theorem views_contained_witness :
    (∀ r ∈ rowPacker.run (rowPacker.New 4 4) (requests sampleOps),
      r.toRectangle.In ⟨⟨0, 0⟩, ⟨4, 4⟩⟩ = true) ∧
    ∀ s ∈ (sampleFresh.1.addAll sampleFresh.2 sampleOps).1.SubImages,
      ∃ v : subImage, s.Image = some v ∧
        v.Bounds.In ((sampleFresh.1.addAll sampleFresh.2 sampleOps).1.Bounds
          (sampleFresh.1.addAll sampleFresh.2 sampleOps).2) = true :=
  ⟨by decide, views_contained sampleFresh.2 sampleFresh.1 4 4 sampleOps
    (Fresh.new Heap.empty 4) (by decide)⟩

/-! ## What `draw.Draw` writes -/

theorem Point_In_Intersect (p : image.Point) (r s : image.Rectangle)
    (hp : p.In (r.Intersect s) = true) : p.In r = true := by
  simp only [image.Rectangle.Intersect, image.Rectangle.Empty, image.Point.In, image.ZR,
    Bool.and_eq_true, Bool.or_eq_true, decide_eq_true_eq] at hp ⊢
  split_ifs at hp <;> simp only [] at hp <;> omega

theorem Intersect_of_In (r s : image.Rectangle) (he : r.Empty = false)
    (hin : r.In s = true) : r.Intersect s = r := by
  simp only [image.Rectangle.In, he, Bool.false_eq_true, if_false, Bool.and_eq_true,
    decide_eq_true_eq] at hin
  obtain ⟨⟨⟨h1, h2⟩, h3⟩, h4⟩ := hin
  have e1 : ¬ r.Min.X < s.Min.X := by omega
  have e2 : ¬ r.Min.Y < s.Min.Y := by omega
  have e3 : ¬ r.Max.X > s.Max.X := by omega
  have e4 : ¬ r.Max.Y > s.Max.Y := by omega
  simp only [image.Rectangle.Intersect, e1, e2, e3, e4, if_false, he, Bool.false_eq_true]

/-- When the destination rectangle is not empty, lies inside the destination image
and has the size of the source image, clipping changes nothing. -/
theorem clip_of_fit (dstB b srcB : image.Rectangle) (he : b.Empty = false)
    (hin : b.In dstB = true) (hdx : b.Dx = srcB.Dx) (hdy : b.Dy = srcB.Dy) :
    draw.clip dstB b srcB srcB.Min = (b, srcB.Min) := by
  have h2 : b.In (srcB.Add (b.Min.Sub srcB.Min)) = true := by
    simp only [image.Rectangle.Dx, image.Rectangle.Dy] at hdx hdy
    simp only [image.Rectangle.In, he, Bool.false_eq_true, if_false, Bool.and_eq_true,
      decide_eq_true_eq, image.Rectangle.Add, image.Point.Add, image.Point.Sub]
    omega
  simp only [draw.clip]
  rw [Intersect_of_In b dstB he hin, Intersect_of_In b _ he h2]
  simp

theorem DrawImage_At_outside (dst : image.Image) (r : image.Rectangle) (src : image.Image)
    (sp : image.Point) (x y : Int) (hout : (image.Point.mk x y).In r = false) :
    (draw.DrawImage dst r src sp).At x y = dst.At x y := by
  simp only [draw.DrawImage]
  split
  · rfl
  · have hc : (image.Point.mk x y).In (draw.clip dst.Bounds r src.Bounds sp).1 = false := by
      cases hq : (image.Point.mk x y).In (draw.clip dst.Bounds r src.Bounds sp).1 with
      | false => rfl
      | true =>
        simp only [draw.clip] at hq
        have := Point_In_Intersect _ _ _ (Point_In_Intersect _ _ _ hq)
        rw [this] at hout
        exact absurd hout (by simp)
    simp only [image.Image.At, hc, Bool.false_eq_true, if_false]

theorem DrawImage_At_inside (dst : image.Image) (b : image.Rectangle) (src : image.Image)
    (hin : b.In dst.Bounds = true) (hdx : b.Dx = src.Bounds.Dx) (hdy : b.Dy = src.Bounds.Dy)
    (dx dy : Int) (h0 : 0 ≤ dx) (h1 : dx < src.Bounds.Dx) (h2 : 0 ≤ dy)
    (h3 : dy < src.Bounds.Dy) :
    (draw.DrawImage dst b src src.Bounds.Min).At (b.Min.X + dx) (b.Min.Y + dy) =
      src.At (src.Bounds.Min.X + dx) (src.Bounds.Min.Y + dy) := by
  have he : b.Empty = false := by
    simp only [image.Rectangle.Dx, image.Rectangle.Dy] at hdx hdy h1 h3
    simp only [image.Rectangle.Empty, Bool.or_eq_false_iff, decide_eq_false_iff_not]
    omega
  have hpb : (image.Point.mk (b.Min.X + dx) (b.Min.Y + dy)).In b = true := by
    simp only [image.Rectangle.Dx, image.Rectangle.Dy] at hdx hdy h1 h3
    simp only [image.Point.In, Bool.and_eq_true, decide_eq_true_eq]
    omega
  have hpd : (image.Point.mk (b.Min.X + dx) (b.Min.Y + dy)).In dst.Rect = true := by
    simp only [image.Rectangle.In, he, Bool.false_eq_true, if_false, Bool.and_eq_true,
      decide_eq_true_eq, image.Image.Bounds] at hin
    simp only [image.Point.In, Bool.and_eq_true, decide_eq_true_eq] at hpb ⊢
    omega
  simp only [draw.DrawImage, clip_of_fit dst.Bounds b src.Bounds he hin hdx hdy, he,
    Bool.false_eq_true, if_false]
  simp only [image.Image.At, hpd, hpb, if_true]
  have e1 : src.Bounds.Min.X + (b.Min.X + dx - b.Min.X) = src.Bounds.Min.X + dx := by omega
  have e2 : src.Bounds.Min.Y + (b.Min.Y + dy - b.Min.Y) = src.Bounds.Min.Y + dy := by omega
  rw [e1, e2]

theorem Draw_At (h : Heap) (dst : Ref) (r : image.Rectangle) (src : image.Image)
    (sp : image.Point) (x y : Int) :
    (draw.Draw h dst r src sp).At dst x y = (draw.DrawImage (h.cell dst) r src sp).At x y := by
  simp [draw.Draw, Heap.At]

theorem Draw_cell_other (h : Heap) (dst : Ref) (r : image.Rectangle) (src : image.Image)
    (sp : image.Point) (q : Ref) (hq : q ≠ dst) :
    (draw.Draw h dst r src sp).cell q = h.cell q := by
  simp [draw.Draw, hq]

theorem addAll_append (ops : List (String × image.Image)) (id : String) (img : image.Image)
    (h : Heap) (a : Atlas P) :
    a.addAll h (ops ++ [(id, img)]) =
      (((a.addAll h ops).1.Add (a.addAll h ops).2 id img).atlas,
        ((a.addAll h ops).1.Add (a.addAll h ops).2 id img).heap) := by
  induction ops generalizing h a with
  | nil => rfl
  | cons op ops ih =>
    obtain ⟨id1, img1⟩ := op
    show Atlas.addAll _ _ (ops ++ [(id, img)]) = _
    rw [ih]
    rfl

theorem Overlaps_of_common_point (p : image.Point) (r s : image.Rectangle)
    (hr : p.In r = true) (hs : p.In s = true) : r.Overlaps s = true := by
  simp only [image.Point.In, Bool.and_eq_true, decide_eq_true_eq] at hr hs
  simp only [image.Rectangle.Overlaps, image.Rectangle.Empty, Bool.and_eq_true,
    Bool.not_eq_true', Bool.or_eq_false_iff, decide_eq_false_iff_not, decide_eq_true_eq]
  omega

/-- After a successful `Add`, a pixel outside the new rectangle is what it was. -/
theorem Add_At_outside (h : Heap) (a : Atlas P) (id : String) (img : image.Image)
    (n : subImage) (hn : (a.Add h id img).sub.Image = some n) (x y : Int)
    (hout : (image.Point.mk x y).In n.Bounds = false) :
    (a.Add h id img).atlas.At (a.Add h id img).heap x y = a.At h x y := by
  cases hins : (P.Insert a.packer img.Bounds.Dx img.Bounds.Dy).1.2 with
  | some e =>
    rw [Add_of_error h a id img e hins] at hn
    simp [SubImage.zero] at hn
  | none =>
    rw [Add_of_ok h a id img hins] at hn ⊢
    simp only [Option.some.injEq] at hn
    subst hn
    simp only [Atlas.At, Draw_At]
    exact DrawImage_At_outside _ _ _ _ x y hout

theorem built_pairwise {h0 : Heap} {a0 : Atlas P} {W H : Int} (hf : Fresh P h0 a0 W H)
    (ops : List (String × image.Image))
    (hp : (P.run (P.New W H) (requests ops)).Pairwise
      (fun r s => r.toRectangle.Overlaps s.toRectangle = false)) :
    ((a0.addAll h0 ops).1.SubImages.map SubImage.Bounds).Pairwise
      (fun b c => ∃ r s : image.Rectangle, b = some r ∧ c = some s ∧ r.Overlaps s = false) := by
  rw [built_Bounds hf ops, List.pairwise_map, List.pairwise_map]
  refine hp.imp ?_
  intro r s hrs
  exact ⟨_, _, rfl, rfl, by rw [placed_Overlaps]; exact hrs⟩

theorem Add_sub_of_ok (h : Heap) (a : Atlas P) (id : String) (img : image.Image)
    (hok : (a.Add h id img).err = none) :
    ∃ n : subImage, (a.Add h id img).sub.Image = some n ∧
      (a.Add h id img).atlas.SubImages = a.SubImages ++ [(a.Add h id img).sub] := by
  cases hins : (P.Insert a.packer img.Bounds.Dx img.Bounds.Dy).1.2 with
  | some e =>
    rw [Add_of_error h a id img e hins] at hok
    simp at hok
  | none =>
    rw [Add_of_ok h a id img hins]
    exact ⟨_, rfl, rfl⟩

/-! ## Pixels: copy, frame and aliasing -/

/-- Copy of the channels, for an `img` with the colour model of the surface: when `Add`
answers a view whose rectangle has the width and height of `img`
and lies inside the surface, the call succeeded and reading the view at
`(Bounds().Min.X+dx, Bounds().Min.Y+dy)` gives the pixel of `img` at
`(img.Bounds().Min.X+dx, img.Bounds().Min.Y+dy)`, for all `0 <= dx < w`, `0 <= dy < h`,
whatever the surface held before. -/
theorem Add_copy_fidelity (h : Heap) (a : Atlas P) (id : String) (img : image.Image)
    (v : subImage) (hv : (a.Add h id img).sub.Image = some v)
    (hdx : v.Bounds.Dx = img.Bounds.Dx) (hdy : v.Bounds.Dy = img.Bounds.Dy)
    (hin : v.Bounds.In (a.Bounds h) = true) :
    (a.Add h id img).err = none ∧
    ∀ dx dy : Int, 0 ≤ dx → dx < img.Bounds.Dx → 0 ≤ dy → dy < img.Bounds.Dy →
      v.At (a.Add h id img).heap (v.Bounds.Min.X + dx) (v.Bounds.Min.Y + dy) =
        img.At (img.Bounds.Min.X + dx) (img.Bounds.Min.Y + dy) := by
  cases hins : (P.Insert a.packer img.Bounds.Dx img.Bounds.Dy).1.2 with
  | some e =>
    rw [Add_of_error h a id img e hins] at hv
    simp [SubImage.zero] at hv
  | none =>
    rw [Add_of_ok h a id img hins] at hv ⊢
    simp only [Option.some.injEq] at hv
    subst hv
    refine ⟨rfl, ?_⟩
    intro dx dy h0 h1 h2 h3
    simp only [subImage.At, Draw_At]
    exact DrawImage_At_inside _ _ _ hin hdx hdy dx dy h0 h1 h2 h3

/-- An instance of `Add_copy_fidelity`: the 2 by 2 red image added to `New(4)`. -/
theorem Add_copy_fidelity_witness :
    ((sampleFresh.1.Add sampleFresh.2 "a" sampleSmall).sub.Image
        = some ⟨0, ⟨⟨0, 0⟩, ⟨2, 2⟩⟩⟩ ∧
      (subImage.mk 0 ⟨⟨0, 0⟩, ⟨2, 2⟩⟩).Bounds.Dx = sampleSmall.Bounds.Dx ∧
      (subImage.mk 0 ⟨⟨0, 0⟩, ⟨2, 2⟩⟩).Bounds.Dy = sampleSmall.Bounds.Dy ∧
      (subImage.mk 0 ⟨⟨0, 0⟩, ⟨2, 2⟩⟩).Bounds.In (sampleFresh.1.Bounds sampleFresh.2) = true) ∧
    ((sampleFresh.1.Add sampleFresh.2 "a" sampleSmall).err = none ∧
    ∀ dx dy : Int, 0 ≤ dx → dx < sampleSmall.Bounds.Dx → 0 ≤ dy → dy < sampleSmall.Bounds.Dy →
      (subImage.mk 0 ⟨⟨0, 0⟩, ⟨2, 2⟩⟩).At (sampleFresh.1.Add sampleFresh.2 "a" sampleSmall).heap
          ((subImage.mk 0 ⟨⟨0, 0⟩, ⟨2, 2⟩⟩).Bounds.Min.X + dx)
          ((subImage.mk 0 ⟨⟨0, 0⟩, ⟨2, 2⟩⟩).Bounds.Min.Y + dy) =
        sampleSmall.At (sampleSmall.Bounds.Min.X + dx) (sampleSmall.Bounds.Min.Y + dy)) :=
  ⟨⟨by decide, by decide, by decide, by decide⟩,
    Add_copy_fidelity sampleFresh.2 sampleFresh.1 "a" sampleSmall ⟨0, ⟨⟨0, 0⟩, ⟨2, 2⟩⟩⟩
      (by decide) (by decide) (by decide) (by decide)⟩

/-- C7: after a successful `Add`, every surface pixel outside the new view's
`Bounds()` is what it was before the call; hence, when the atlas was built by a
constructor and `Add` calls and the packer's rectangles, the new one included, do
not overlap one another, every pixel inside the `Bounds()` of every earlier view is
unchanged; and every earlier element of `SubImages`, with its `Bounds()` and `ID`,
is unchanged. -/
theorem Add_frame (h : Heap) (a : Atlas P) (id : String) (img : image.Image)
    (hok : (a.Add h id img).err = none) :
    ∃ n : subImage, (a.Add h id img).sub.Image = some n ∧
      (∀ x y : Int, (image.Point.mk x y).In n.Bounds = false →
        (a.Add h id img).atlas.At (a.Add h id img).heap x y = a.At h x y) ∧
      (∀ (h0 : Heap) (a0 : Atlas P) (W H : Int) (ops : List (String × image.Image)),
        Fresh P h0 a0 W H → a0.addAll h0 ops = (a, h) →
        (P.run (P.New W H) (requests (ops ++ [(id, img)]))).Pairwise
          (fun r s => r.toRectangle.Overlaps s.toRectangle = false) →
        ∀ s ∈ a.SubImages, ∃ v : subImage, s.Image = some v ∧
          ∀ x y : Int, (image.Point.mk x y).In v.Bounds = true →
            (a.Add h id img).atlas.At (a.Add h id img).heap x y = a.At h x y) ∧
      (∀ i : Nat, i < a.SubImages.length →
        (a.Add h id img).atlas.SubImages[i]? = a.SubImages[i]?) := by
  obtain ⟨n, hn, hS⟩ := Add_sub_of_ok h a id img hok
  refine ⟨n, hn, fun x y hout => Add_At_outside h a id img n hn x y hout, ?_, ?_⟩
  · intro h0 a0 W H ops hf heq hp s hs
    have hpw := built_pairwise hf (ops ++ [(id, img)]) hp
    rw [addAll_append, heq] at hpw
    simp only [hS, List.map_append, List.map_cons, List.map_nil] at hpw
    rw [List.pairwise_append] at hpw
    obtain ⟨r, t, hr, ht, hov⟩ :=
      hpw.2.2 s.Bounds (List.mem_map_of_mem _ hs) (a.Add h id img).sub.Bounds (by simp)
    simp only [SubImage.Bounds, hn, Option.map_some', Option.some.injEq] at ht
    cases hv : s.Image with
    | none => simp [SubImage.Bounds, hv] at hr
    | some v =>
      simp only [SubImage.Bounds, hv, Option.map_some', Option.some.injEq] at hr
      refine ⟨v, rfl, ?_⟩
      intro x y hin
      apply Add_At_outside h a id img n hn x y
      cases hq : (image.Point.mk x y).In n.Bounds with
      | false => rfl
      | true =>
        have := Overlaps_of_common_point _ _ _ hin hq
        rw [hr, ht, hov] at this
        exact absurd this (by simp)
  · intro i hi
    rw [hS, List.getElem?_append_left hi]

/-- Witness for C7: the call `Add("b", sampleDot)` after `Add("a", sampleSmall)` on
`New(4)`; the hypotheses of the part on earlier views are discharged as well. -/
theorem Add_frame_witness :
    (sampleOne.atlas.Add sampleOne.heap "b" sampleDot).err = none ∧
    ∃ n : subImage, sampleTwo.sub.Image = some n ∧
      (∀ x y : Int, (image.Point.mk x y).In n.Bounds = false →
        sampleTwo.atlas.At sampleTwo.heap x y = sampleOne.atlas.At sampleOne.heap x y) ∧
      (∀ s ∈ sampleOne.atlas.SubImages, ∃ v : subImage, s.Image = some v ∧
        ∀ x y : Int, (image.Point.mk x y).In v.Bounds = true →
          sampleTwo.atlas.At sampleTwo.heap x y = sampleOne.atlas.At sampleOne.heap x y) ∧
      (∀ i : Nat, i < sampleOne.atlas.SubImages.length →
        sampleTwo.atlas.SubImages[i]? = sampleOne.atlas.SubImages[i]?) :=
  ⟨by decide,
    (Add_frame sampleOne.heap sampleOne.atlas "b" sampleDot (by decide)).imp
      (fun _ hn => ⟨hn.1, hn.2.1,
        hn.2.2.1 sampleFresh.2 sampleFresh.1 4 4 [("a", sampleSmall)]
          (Fresh.new Heap.empty 4) rfl (by decide),
        hn.2.2.2⟩)⟩

/-- C8: a view returned by `Add` refers to the image object of the atlas and holds
no pixels of its own: writing `c` at `p` through the view is the same change as
writing it through the atlas, so a read of `p` through the atlas after a write
through the view, and a read through the view after a write through the atlas, both
give what the atlas reads after its own write (`c` when `p` is inside the surface). -/
theorem view_aliasing (h : Heap) (a : Atlas P) (id : String) (img : image.Image)
    (v : subImage) (hv : (a.Add h id img).sub.Image = some v) :
    v.Image = (a.Add h id img).atlas.Image ∧
    ∀ (g : Heap) (x y : Int) (c : color.NRGBA),
      v.Set g x y c = (a.Add h id img).atlas.Set g x y c ∧
      (a.Add h id img).atlas.At (v.Set g x y c) x y =
        (a.Add h id img).atlas.At ((a.Add h id img).atlas.Set g x y c) x y ∧
      v.At ((a.Add h id img).atlas.Set g x y c) x y =
        (a.Add h id img).atlas.At ((a.Add h id img).atlas.Set g x y c) x y ∧
      (a.Add h id img).atlas.At ((a.Add h id img).atlas.Set g x y c) x y =
        if (image.Point.mk x y).In ((a.Add h id img).atlas.Bounds g) then c else color.zero := by
  cases hins : (P.Insert a.packer img.Bounds.Dx img.Bounds.Dy).1.2 with
  | some e =>
    rw [Add_of_error h a id img e hins] at hv
    simp [SubImage.zero] at hv
  | none =>
    rw [Add_of_ok h a id img hins] at hv ⊢
    simp only [Option.some.injEq] at hv
    subst hv
    refine ⟨rfl, fun g x y c => ⟨rfl, rfl, rfl, ?_⟩⟩
    simp only [Atlas.At, Atlas.Set, Atlas.Bounds, Heap.At, Heap.Set, Heap.Bounds,
      image.Image.Bounds, if_true]
    by_cases hp : (image.Point.mk x y).In (g.cell a.Image).Rect = true
    · simp [image.Image.Set, image.Image.At, hp]
    · simp [image.Image.Set, image.Image.At, hp]

/-- Witness for C8: the view returned by `Add("a", sampleSmall)` on `New(4)`. -/
theorem view_aliasing_witness :
    sampleOne.sub.Image = some ⟨0, ⟨⟨0, 0⟩, ⟨2, 2⟩⟩⟩ ∧
    ((subImage.mk 0 ⟨⟨0, 0⟩, ⟨2, 2⟩⟩).Image = sampleOne.atlas.Image ∧
    ∀ (g : Heap) (x y : Int) (c : color.NRGBA),
      (subImage.mk 0 ⟨⟨0, 0⟩, ⟨2, 2⟩⟩).Set g x y c = sampleOne.atlas.Set g x y c ∧
      sampleOne.atlas.At ((subImage.mk 0 ⟨⟨0, 0⟩, ⟨2, 2⟩⟩).Set g x y c) x y =
        sampleOne.atlas.At (sampleOne.atlas.Set g x y c) x y ∧
      (subImage.mk 0 ⟨⟨0, 0⟩, ⟨2, 2⟩⟩).At (sampleOne.atlas.Set g x y c) x y =
        sampleOne.atlas.At (sampleOne.atlas.Set g x y c) x y ∧
      sampleOne.atlas.At (sampleOne.atlas.Set g x y c) x y =
        if (image.Point.mk x y).In (sampleOne.atlas.Bounds g) then c else color.zero) :=
  ⟨by decide, view_aliasing sampleFresh.2 sampleFresh.1 "a" sampleSmall
    ⟨0, ⟨⟨0, 0⟩, ⟨2, 2⟩⟩⟩ (by decide)⟩

/-- Counterexample for C9 as stated: the second view of the sample run has
`Bounds().Min = (2, 0)`; a read through it at `(0, 0)` gives the surface pixel at
`(0, 0)` (red, from the first image), not the surface pixel at
`(0 + Min.X, 0 + Min.Y) = (2, 0)` (green). -/
theorem view_rebasing_counterexample :
    ∃ v : subImage, sampleTwo.sub.Image = some v ∧ v.Bounds.Min = ⟨2, 0⟩ ∧
      v.At sampleTwo.heap 0 0 = color.red ∧
      sampleTwo.atlas.At sampleTwo.heap (0 + v.Bounds.Min.X) (0 + v.Bounds.Min.Y)
        = color.green ∧
      v.At sampleTwo.heap 0 0 ≠
        sampleTwo.atlas.At sampleTwo.heap (0 + v.Bounds.Min.X) (0 + v.Bounds.Min.Y) :=
  ⟨⟨0, ⟨⟨2, 0⟩, ⟨3, 1⟩⟩⟩, by decide, by decide, by decide, by decide, by decide⟩

/-- C9, amended: a pixel read or write through a view returned by `Add` at `(x, y)`
is performed on the shared surface at the same `(x, y)`: the view delegates to the
surface's pixel accessor and adds nothing to the coordinates. -/
theorem view_same_coordinates (h : Heap) (a : Atlas P) (id : String) (img : image.Image)
    (v : subImage) (hv : (a.Add h id img).sub.Image = some v) :
    ∀ (g : Heap) (x y : Int) (c : color.NRGBA),
      v.At g x y = g.At (a.Add h id img).atlas.Image x y ∧
      v.Set g x y c = g.Set (a.Add h id img).atlas.Image x y c := by
  cases hins : (P.Insert a.packer img.Bounds.Dx img.Bounds.Dy).1.2 with
  | some e =>
    rw [Add_of_error h a id img e hins] at hv
    simp [SubImage.zero] at hv
  | none =>
    rw [Add_of_ok h a id img hins] at hv ⊢
    simp only [Option.some.injEq] at hv
    subst hv
    exact fun g x y c => ⟨rfl, rfl⟩

/-- Witness for C9, amended: the second view of the sample run. -/
theorem view_same_coordinates_witness :
    sampleTwo.sub.Image = some ⟨0, ⟨⟨2, 0⟩, ⟨3, 1⟩⟩⟩ ∧
    ∀ (g : Heap) (x y : Int) (c : color.NRGBA),
      (subImage.mk 0 ⟨⟨2, 0⟩, ⟨3, 1⟩⟩).At g x y = g.At sampleTwo.atlas.Image x y ∧
      (subImage.mk 0 ⟨⟨2, 0⟩, ⟨3, 1⟩⟩).Set g x y c = g.Set sampleTwo.atlas.Image x y c :=
  ⟨by decide, view_same_coordinates sampleOne.heap sampleOne.atlas "b" sampleDot
    ⟨0, ⟨⟨2, 0⟩, ⟨3, 1⟩⟩⟩ (by decide)⟩

/-! ## Bounds of a new view, and when `Add` fails -/

/-- C11: when `Insert` answers `(X, Y, Width, Height)`, the view returned by `Add` has
`Bounds().Min` equal to the surface's `Bounds().Min` plus `(X, Y)` and `Bounds().Max`
equal to `Bounds().Min` plus `(Width, Height)`; when the packer answers the requested
size, the view is as wide and as high as `img`, so its area is `w*h`. -/
theorem Add_view_bounds (h : Heap) (a : Atlas P) (id : String) (img : image.Image)
    (hins : (P.Insert a.packer img.Bounds.Dx img.Bounds.Dy).1.2 = none) :
    ∃ v : subImage, (a.Add h id img).sub.Image = some v ∧
      v.Bounds.Min = (a.Bounds h).Min.Add
        (image.Pt (P.Insert a.packer img.Bounds.Dx img.Bounds.Dy).1.1.X
          (P.Insert a.packer img.Bounds.Dx img.Bounds.Dy).1.1.Y) ∧
      v.Bounds.Max = v.Bounds.Min.Add
        (image.Pt (P.Insert a.packer img.Bounds.Dx img.Bounds.Dy).1.1.Width
          (P.Insert a.packer img.Bounds.Dx img.Bounds.Dy).1.1.Height) ∧
      ((P.Insert a.packer img.Bounds.Dx img.Bounds.Dy).1.1.Width = img.Bounds.Dx →
        (P.Insert a.packer img.Bounds.Dx img.Bounds.Dy).1.1.Height = img.Bounds.Dy →
        v.Bounds.Dx = img.Bounds.Dx ∧ v.Bounds.Dy = img.Bounds.Dy ∧
          v.Bounds.Dx * v.Bounds.Dy = img.Bounds.Dx * img.Bounds.Dy) := by
  rw [Add_of_ok h a id img hins]
  refine ⟨_, rfl, rfl, rfl, ?_⟩
  intro hw hh
  have hx : (subImage.mk a.Image (placed (h.Bounds a.Image).Min
      (P.Insert a.packer img.Bounds.Dx img.Bounds.Dy).1.1)).Bounds.Dx = img.Bounds.Dx := by
    simp only [subImage.Bounds, placed, image.Rectangle.Dx, image.Point.Add, image.Pt]
    simp only [image.Rectangle.Dx] at hw
    omega
  have hy : (subImage.mk a.Image (placed (h.Bounds a.Image).Min
      (P.Insert a.packer img.Bounds.Dx img.Bounds.Dy).1.1)).Bounds.Dy = img.Bounds.Dy := by
    simp only [subImage.Bounds, placed, image.Rectangle.Dy, image.Point.Add, image.Pt]
    simp only [image.Rectangle.Dy] at hh
    omega
  exact ⟨hx, hy, by rw [hx, hy]⟩

/-- Witness for C11: the 2 by 2 image added to `New(4)` gets a view of area 4. -/
theorem Add_view_bounds_witness :
    (rowPacker.Insert sampleFresh.1.packer sampleSmall.Bounds.Dx sampleSmall.Bounds.Dy).1.2
      = none ∧
    (∃ v : subImage, (sampleFresh.1.Add sampleFresh.2 "a" sampleSmall).sub.Image = some v ∧
      v.Bounds.Min = (sampleFresh.1.Bounds sampleFresh.2).Min.Add
        (image.Pt
          (rowPacker.Insert sampleFresh.1.packer sampleSmall.Bounds.Dx
            sampleSmall.Bounds.Dy).1.1.X
          (rowPacker.Insert sampleFresh.1.packer sampleSmall.Bounds.Dx
            sampleSmall.Bounds.Dy).1.1.Y) ∧
      v.Bounds.Max = v.Bounds.Min.Add
        (image.Pt
          (rowPacker.Insert sampleFresh.1.packer sampleSmall.Bounds.Dx
            sampleSmall.Bounds.Dy).1.1.Width
          (rowPacker.Insert sampleFresh.1.packer sampleSmall.Bounds.Dx
            sampleSmall.Bounds.Dy).1.1.Height) ∧
      ((rowPacker.Insert sampleFresh.1.packer sampleSmall.Bounds.Dx
            sampleSmall.Bounds.Dy).1.1.Width = sampleSmall.Bounds.Dx →
        (rowPacker.Insert sampleFresh.1.packer sampleSmall.Bounds.Dx
            sampleSmall.Bounds.Dy).1.1.Height = sampleSmall.Bounds.Dy →
        v.Bounds.Dx = sampleSmall.Bounds.Dx ∧ v.Bounds.Dy = sampleSmall.Bounds.Dy ∧
          v.Bounds.Dx * v.Bounds.Dy = sampleSmall.Bounds.Dx * sampleSmall.Bounds.Dy)) ∧
    sampleSmall.Bounds.Dx * sampleSmall.Bounds.Dy = 4 :=
  ⟨by decide, Add_view_bounds sampleFresh.2 sampleFresh.1 "a" sampleSmall (by decide),
    by decide⟩

/-- C12: `Add` answers an error exactly when `Insert`, called with the width and
height of `img`, does; the error text is then `unable to add image to atlas: `
followed by the packer's text; and the error, the placement, the pixels written and
the packer do not depend on the id, so no id is rejected. -/
theorem Add_error_iff (h : Heap) (a : Atlas P) (id : String) (img : image.Image) :
    ((a.Add h id img).err ≠ none ↔
      (P.Insert a.packer img.Bounds.Dx img.Bounds.Dy).1.2 ≠ none) ∧
    (∀ e : String, (P.Insert a.packer img.Bounds.Dx img.Bounds.Dy).1.2 = some e →
      (a.Add h id img).err = some ("unable to add image to atlas: " ++ e)) ∧
    (∀ id2 : String,
      (a.Add h id2 img).err = (a.Add h id img).err ∧
      (a.Add h id2 img).sub.Image = (a.Add h id img).sub.Image ∧
      (a.Add h id2 img).heap = (a.Add h id img).heap ∧
      (a.Add h id2 img).atlas.packer = (a.Add h id img).atlas.packer) := by
  cases hins : (P.Insert a.packer img.Bounds.Dx img.Bounds.Dy).1.2 with
  | some e =>
    refine ⟨?_, ?_, ?_⟩
    · rw [Add_of_error h a id img e hins]
      simp
    · intro e2 he2
      rw [Add_of_error h a id img e hins]
      simp only [Option.some.injEq] at he2
      rw [he2]
    · intro id2
      rw [Add_of_error h a id img e hins, Add_of_error h a id2 img e hins]
      exact ⟨rfl, rfl, rfl, rfl⟩
  | none =>
    refine ⟨?_, ?_, ?_⟩
    · rw [Add_of_ok h a id img hins]
    · intro e2 he2
      exact absurd he2 (by simp)
    · intro id2
      rw [Add_of_ok h a id img hins, Add_of_ok h a id2 img hins]
      exact ⟨rfl, rfl, rfl, rfl⟩

/-! ## The constructors -/

/-- What `New(size)` returns for a positive `size`: an atlas whose `Bounds()` is the
square from `(0,0)` to `(size,size)`, whose `SubImages` is empty, whose pixels are all
the zero colour, and whose packer was created for a bin of `size` by `size`. -/
theorem New_spec (P : binpacker.Packer) (h : Heap) (size : Int) (hs : 0 < size) :
    (New P h size).1.Bounds (New P h size).2 = ⟨⟨0, 0⟩, ⟨size, size⟩⟩ ∧
    (New P h size).1.SubImages = [] ∧
    (∀ x y : Int, (New P h size).1.At (New P h size).2 x y = color.zero) ∧
    (New P h size).1.packer = P.New size size := by
  have hn : ¬ (0 > size) := by omega
  refine ⟨?_, rfl, ?_, rfl⟩
  · simp [New, Atlas.Bounds, Heap.alloc, Heap.Bounds, image.Image.Bounds, image.NewNRGBA,
      image.Rect, hn]
  · intro x y
    simp [New, Atlas.At, Heap.alloc, Heap.At, image.Image.At, image.NewNRGBA]

/-- An instance of `New_spec`: `New(4)`. -/
theorem New_spec_witness :
    (0 : Int) < 4 ∧
    ((New rowPacker Heap.empty 4).1.Bounds (New rowPacker Heap.empty 4).2
        = ⟨⟨0, 0⟩, ⟨4, 4⟩⟩ ∧
    (New rowPacker Heap.empty 4).1.SubImages = [] ∧
    (∀ x y : Int,
      (New rowPacker Heap.empty 4).1.At (New rowPacker Heap.empty 4).2 x y = color.zero) ∧
    (New rowPacker Heap.empty 4).1.packer = rowPacker.New 4 4) :=
  ⟨by decide, New_spec rowPacker Heap.empty 4 (by decide)⟩

/-- C17: `NewFromImage(img)` answers an atlas on the very image object `img`: its
`Bounds()` and its pixel at every coordinate are those of `img`, `SubImages` is empty,
and the packer was created for a bin of `img.Bounds().Dx()` by `img.Bounds().Dy()`,
so that two images of the same width and height give the same packer whatever their
origin and content. -/
theorem NewFromImage_spec (P : binpacker.Packer) (h : Heap) (img : Ref) :
    (NewFromImage P h img).Image = img ∧
    (NewFromImage P h img).Bounds h = h.Bounds img ∧
    (∀ x y : Int, (NewFromImage P h img).At h x y = h.At img x y) ∧
    (NewFromImage P h img).SubImages = [] ∧
    (NewFromImage P h img).packer = P.New (h.Bounds img).Dx (h.Bounds img).Dy ∧
    (∀ (h2 : Heap) (img2 : Ref), (h2.Bounds img2).Dx = (h.Bounds img).Dx →
      (h2.Bounds img2).Dy = (h.Bounds img).Dy →
      (NewFromImage P h2 img2).packer = (NewFromImage P h img).packer) := by
  refine ⟨rfl, rfl, fun _ _ => rfl, rfl, rfl, ?_⟩
  intro h2 img2 hx hy
  simp only [NewFromImage, hx, hy]

/-! ## Lookup after further calls -/

theorem loop_append_of_hit (id : String) (l m : List SubImage)
    (hl : (GetSubImageByID.loop id l).2 = none) :
    GetSubImageByID.loop id (l ++ m) = GetSubImageByID.loop id l := by
  induction l with
  | nil => simp [GetSubImageByID.loop] at hl
  | cons t l ih =>
    by_cases ht : t.ID = id
    · simp [GetSubImageByID.loop, ht]
    · simp only [GetSubImageByID.loop, ht, if_false] at hl
      simp [GetSubImageByID.loop, ht, ih hl]

/-- C19: when `GetSubImageByID(id)` succeeds, then after any further sequence of `Add`
calls, successful or not and with any ids, it answers the same `SubImage` (same view,
`ID` and `Bounds()`) with a nil error; the old `SubImages` is a prefix of the new one,
so no element was removed, moved or rewritten. -/
theorem lookup_stable (h : Heap) (a : Atlas P) (id : String)
    (ops : List (String × image.Image)) (hok : (a.GetSubImageByID id).2 = none) :
    (a.addAll h ops).1.GetSubImageByID id = a.GetSubImageByID id ∧
    a.SubImages <+: (a.addAll h ops).1.SubImages := by
  constructor
  · simp only [Atlas.GetSubImageByID, addAll_SubImages]
    exact loop_append_of_hit id _ _ hok
  · rw [addAll_SubImages]
    exact List.prefix_append _ _

/-- Witness for C19: the view `a` of the sample atlas after one call, looked up again
after two further calls, one of them failing. -/
theorem lookup_stable_witness :
    (sampleOne.atlas.GetSubImageByID "a").2 = none ∧
    ((sampleOne.atlas.addAll sampleOne.heap [("a", sampleBig), ("b", sampleDot)]).1.GetSubImageByID
        "a" = sampleOne.atlas.GetSubImageByID "a" ∧
    sampleOne.atlas.SubImages <+:
      (sampleOne.atlas.addAll sampleOne.heap [("a", sampleBig), ("b", sampleDot)]).1.SubImages) :=
  ⟨by decide, lookup_stable sampleOne.heap sampleOne.atlas "a"
    [("a", sampleBig), ("b", sampleDot)] (by decide)⟩

theorem loop_ok_iff (id : String) (l : List SubImage) :
    (GetSubImageByID.loop id l).2 = none ↔ ∃ s ∈ l, s.ID = id := by
  have h := loop_err_iff id l
  constructor
  · intro hok
    by_contra hne
    have hall : ∀ s ∈ l, s.ID ≠ id := fun s hs hid => hne ⟨s, hs, hid⟩
    exact (h.2 hall) hok
  · intro hex
    by_contra hne
    obtain ⟨s, hs, hid⟩ := hex
    exact (h.1 hne) s hs hid

/-- The ids carried by the views after a sequence of `Add` calls: the old ones and
those of the calls that succeeded. -/
theorem addAll_mem_ID (ops : List (String × image.Image)) (h : Heap) (a : Atlas P)
    (id : String) :
    (∃ s ∈ (a.addAll h ops).1.SubImages, s.ID = id) ↔
      (∃ s ∈ a.SubImages, s.ID = id) ∨
        ∃ p ∈ List.zip ops (a.addResults h ops), p.1.1 = id ∧ p.2.2 = none := by
  induction ops generalizing h a with
  | nil => simp [Atlas.addAll, Atlas.addResults]
  | cons op ops ih =>
    obtain ⟨id1, img1⟩ := op
    simp only [Atlas.addAll, Atlas.addResults, List.zip_cons_cons, List.mem_cons]
    rw [ih]
    cases hins : (P.Insert a.packer img1.Bounds.Dx img1.Bounds.Dy).1.2 with
    | some e =>
      rw [Add_of_error h a id1 img1 e hins]
      constructor
      · rintro (h1 | ⟨p, hp, h2⟩)
        · exact Or.inl h1
        · exact Or.inr ⟨p, Or.inr hp, h2⟩
      · rintro (h1 | ⟨p, hp | hp, h2⟩)
        · exact Or.inl h1
        · rw [hp] at h2
          exact absurd h2.2 (by simp)
        · exact Or.inr ⟨p, hp, h2⟩
    | none =>
      rw [Add_of_ok h a id1 img1 hins]
      constructor
      · rintro (⟨s, hs, hid⟩ | ⟨p, hp, h2⟩)
        · rcases List.mem_append.1 hs with hs | hs
          · exact Or.inl ⟨s, hs, hid⟩
          · simp only [List.mem_singleton] at hs
            rw [hs] at hid
            exact Or.inr ⟨_, Or.inl rfl, hid, rfl⟩
        · exact Or.inr ⟨p, Or.inr hp, h2⟩
      · rintro (⟨s, hs, hid⟩ | ⟨p, hp | hp, h2⟩)
        · exact Or.inl ⟨s, List.mem_append_left _ hs, hid⟩
        · rw [hp] at h2
          exact Or.inl ⟨_, List.mem_append_right _ (List.mem_singleton_self _), h2.1⟩
        · exact Or.inr ⟨p, hp, h2⟩

/-- C15: on an atlas built by `New` or `NewFromImage` and `Add` calls,
`GetSubImageByID(id)` succeeds exactly when some earlier `Add` call with that id
succeeded, so it fails for an id never passed to `Add`; and right after a successful
`Add(id, img)` it answers a view with `ID == id`, which is the view just added when no
earlier view carried the id. -/
theorem lookup_reachable (h0 : Heap) (a0 : Atlas P) (W H : Int)
    (ops : List (String × image.Image)) (id : String) (hf : Fresh P h0 a0 W H) :
    (((a0.addAll h0 ops).1.GetSubImageByID id).2 = none ↔
      ∃ p ∈ List.zip ops (a0.addResults h0 ops), p.1.1 = id ∧ p.2.2 = none) ∧
    ((∀ op ∈ ops, op.1 ≠ id) → ((a0.addAll h0 ops).1.GetSubImageByID id).2 ≠ none) ∧
    (∀ img : image.Image,
      ((a0.addAll h0 ops).1.Add (a0.addAll h0 ops).2 id img).err = none →
      (((a0.addAll h0 ops).1.Add (a0.addAll h0 ops).2 id img).atlas.GetSubImageByID id).2
        = none ∧
      (((a0.addAll h0 ops).1.Add (a0.addAll h0 ops).2 id img).atlas.GetSubImageByID id).1.ID
        = id ∧
      (((a0.addAll h0 ops).1.GetSubImageByID id).2 ≠ none →
        (((a0.addAll h0 ops).1.Add (a0.addAll h0 ops).2 id img).atlas.GetSubImageByID id).1
          = ((a0.addAll h0 ops).1.Add (a0.addAll h0 ops).2 id img).sub)) := by
  have hiff : (((a0.addAll h0 ops).1.GetSubImageByID id).2 = none ↔
      ∃ p ∈ List.zip ops (a0.addResults h0 ops), p.1.1 = id ∧ p.2.2 = none) := by
    simp only [Atlas.GetSubImageByID]
    rw [loop_ok_iff, addAll_mem_ID, Fresh_SubImages hf]
    simp
  refine ⟨hiff, ?_, ?_⟩
  · intro hall hok
    obtain ⟨p, hp, hid, _⟩ := hiff.1 hok
    exact hall p.1 (List.of_mem_zip hp).1 hid
  · intro img hok
    obtain ⟨n, hn, hS⟩ := Add_sub_of_ok _ _ id img hok
    have hID : ((a0.addAll h0 ops).1.Add (a0.addAll h0 ops).2 id img).sub.ID = id := by
      cases hins : (P.Insert (a0.addAll h0 ops).1.packer img.Bounds.Dx img.Bounds.Dy).1.2 with
      | some e =>
        rw [Add_of_error _ _ id img e hins] at hok
        simp at hok
      | none => rw [Add_of_ok _ _ id img hins]
    have hex : ∃ s ∈ ((a0.addAll h0 ops).1.Add (a0.addAll h0 ops).2 id img).atlas.SubImages,
        s.ID = id :=
      ⟨_, by rw [hS]; exact List.mem_append_right _ (List.mem_singleton_self _), hID⟩
    refine ⟨(loop_ok_iff id _).2 hex, ?_, ?_⟩
    · obtain ⟨i, hi, h1, _, h3⟩ := loop_hit_index id _ hex
      simp only [Atlas.GetSubImageByID]
      rw [h3]
      exact h1
    · intro hne
      simp only [Atlas.GetSubImageByID] at hne ⊢
      rw [hS, loop_append_hit id _ _ [] ((loop_err_iff id _).1 hne) hID]

/-- Witness for C15: the sample atlas `New(4)` after the calls of `sampleOps`. -/
theorem lookup_reachable_witness :
    ((sampleFresh.1.addAll sampleFresh.2 sampleOps).1.GetSubImageByID "b").2 = none ∧
    ((sampleFresh.1.addAll sampleFresh.2 sampleOps).1.GetSubImageByID "z").2 ≠ none ∧
    ((((sampleFresh.1.addAll sampleFresh.2 sampleOps).1.GetSubImageByID "z").2 = none ↔
      ∃ p ∈ List.zip sampleOps (sampleFresh.1.addResults sampleFresh.2 sampleOps),
        p.1.1 = "z" ∧ p.2.2 = none) ∧
    ((∀ op ∈ sampleOps, op.1 ≠ "z") →
      ((sampleFresh.1.addAll sampleFresh.2 sampleOps).1.GetSubImageByID "z").2 ≠ none) ∧
    (∀ img : image.Image,
      ((sampleFresh.1.addAll sampleFresh.2 sampleOps).1.Add
        (sampleFresh.1.addAll sampleFresh.2 sampleOps).2 "z" img).err = none →
      (((sampleFresh.1.addAll sampleFresh.2 sampleOps).1.Add
        (sampleFresh.1.addAll sampleFresh.2 sampleOps).2 "z" img).atlas.GetSubImageByID
          "z").2 = none ∧
      (((sampleFresh.1.addAll sampleFresh.2 sampleOps).1.Add
        (sampleFresh.1.addAll sampleFresh.2 sampleOps).2 "z" img).atlas.GetSubImageByID
          "z").1.ID = "z" ∧
      (((sampleFresh.1.addAll sampleFresh.2 sampleOps).1.GetSubImageByID "z").2 ≠ none →
        (((sampleFresh.1.addAll sampleFresh.2 sampleOps).1.Add
          (sampleFresh.1.addAll sampleFresh.2 sampleOps).2 "z" img).atlas.GetSubImageByID
            "z").1
          = ((sampleFresh.1.addAll sampleFresh.2 sampleOps).1.Add
              (sampleFresh.1.addAll sampleFresh.2 sampleOps).2 "z" img).sub))) :=
  ⟨by decide, by decide,
    lookup_reachable sampleFresh.2 sampleFresh.1 4 4 sampleOps "z" (Fresh.new Heap.empty 4)⟩

/-! ## Views and the whole surface -/

/-- Every view registered by `Add` refers to the image object of the atlas. -/
theorem addAll_views_Image (ops : List (String × image.Image)) (h : Heap) (a : Atlas P)
    (ha : ∀ s ∈ a.SubImages, ∃ v : subImage, s.Image = some v ∧ v.Image = a.Image) :
    ∀ s ∈ (a.addAll h ops).1.SubImages,
      ∃ v : subImage, s.Image = some v ∧ v.Image = a.Image := by
  induction ops generalizing h a with
  | nil => exact ha
  | cons op ops ih =>
    obtain ⟨id1, img1⟩ := op
    simp only [Atlas.addAll]
    have hstep : ∀ s ∈ (a.Add h id1 img1).atlas.SubImages,
        ∃ v : subImage, s.Image = some v ∧ v.Image = (a.Add h id1 img1).atlas.Image := by
      rw [Add_Image]
      cases hins : (P.Insert a.packer img1.Bounds.Dx img1.Bounds.Dy).1.2 with
      | some e =>
        rw [Add_of_error h a id1 img1 e hins]
        exact ha
      | none =>
        rw [Add_of_ok h a id1 img1 hins]
        intro s hs
        rcases List.mem_append.1 hs with hs | hs
        · exact ha s hs
        · simp only [List.mem_singleton] at hs
          rw [hs]
          exact ⟨_, rfl, rfl⟩
    have := ih (a.Add h id1 img1).heap (a.Add h id1 img1).atlas hstep
    rw [Add_Image] at this
    exact this

theorem Heap_At_Set (g : Heap) (r : Ref) (x y : Int) (c : color.NRGBA)
    (hin : (image.Point.mk x y).In (g.Bounds r) = true) :
    (g.Set r x y c).At r x y = c := by
  simp only [Heap.Bounds, image.Image.Bounds] at hin
  simp [Heap.At, Heap.Set, image.Image.Set, image.Image.At, hin]

/-- C20: a view of an atlas built by a constructor and `Add` calls is not clipped to
its `Bounds()`: at every coordinate, inside its bounds or not, a read through the view
is the read through the atlas, and a write through the view at a coordinate of the
surface is what the atlas, and every other view of the atlas, reads there afterwards. -/
theorem views_not_clipped (h0 : Heap) (a0 : Atlas P) (W H : Int)
    (ops : List (String × image.Image)) (hf : Fresh P h0 a0 W H) :
    ∀ s ∈ (a0.addAll h0 ops).1.SubImages, ∃ v : subImage, s.Image = some v ∧
      (∀ (g : Heap) (x y : Int), v.At g x y = (a0.addAll h0 ops).1.At g x y) ∧
      (∀ (g : Heap) (x y : Int) (c : color.NRGBA),
        (image.Point.mk x y).In ((a0.addAll h0 ops).1.Bounds g) = true →
        (a0.addAll h0 ops).1.At (v.Set g x y c) x y = c) ∧
      (∀ t ∈ (a0.addAll h0 ops).1.SubImages, ∃ w : subImage, t.Image = some w ∧
        ∀ (g : Heap) (x y : Int) (c : color.NRGBA),
          (image.Point.mk x y).In ((a0.addAll h0 ops).1.Bounds g) = true →
          w.At (v.Set g x y c) x y = c) := by
  have hall := addAll_views_Image ops h0 a0 (by rw [Fresh_SubImages hf]; simp)
  rw [← addAll_Image ops h0 a0] at hall
  intro s hs
  obtain ⟨v, hv, hvi⟩ := hall s hs
  refine ⟨v, hv, ?_, ?_, ?_⟩
  · intro g x y
    simp only [subImage.At, Atlas.At, hvi]
  · intro g x y c hin
    simp only [subImage.Set, Atlas.At, hvi]
    exact Heap_At_Set g _ x y c hin
  · intro t ht
    obtain ⟨w, hw, hwi⟩ := hall t ht
    refine ⟨w, hw, ?_⟩
    intro g x y c hin
    simp only [subImage.Set, subImage.At, hvi, hwi]
    exact Heap_At_Set g _ x y c hin

/-- Witness for C20: in the sample run of two calls the second view has bounds
`(2,0)-(3,1)`; a write of blue through it at `(0,0)`, a coordinate outside its bounds
and inside the bounds `(0,0)-(2,2)` of the first view, turns the pixel that the first
view reads there from red to blue. -/
theorem views_not_clipped_witness :
    (subImage.mk 0 ⟨⟨0, 0⟩, ⟨2, 2⟩⟩).At sampleTwo.heap 0 0 = color.red ∧
    (subImage.mk 0 ⟨⟨0, 0⟩, ⟨2, 2⟩⟩).At
      ((subImage.mk 0 ⟨⟨2, 0⟩, ⟨3, 1⟩⟩).Set sampleTwo.heap 0 0 color.blue) 0 0 = color.blue ∧
    (image.Point.mk 0 0).In (subImage.mk 0 ⟨⟨2, 0⟩, ⟨3, 1⟩⟩).Bounds = false ∧
    (sampleFresh.1.addAll sampleFresh.2 [("a", sampleSmall), ("b", sampleDot)]).1.SubImages
      = [⟨some ⟨0, ⟨⟨0, 0⟩, ⟨2, 2⟩⟩⟩, "a"⟩, ⟨some ⟨0, ⟨⟨2, 0⟩, ⟨3, 1⟩⟩⟩, "b"⟩] ∧
    ∀ s ∈ (sampleFresh.1.addAll sampleFresh.2
        [("a", sampleSmall), ("b", sampleDot)]).1.SubImages,
      ∃ v : subImage, s.Image = some v ∧
      (∀ (g : Heap) (x y : Int), v.At g x y =
        (sampleFresh.1.addAll sampleFresh.2 [("a", sampleSmall), ("b", sampleDot)]).1.At
          g x y) ∧
      (∀ (g : Heap) (x y : Int) (c : color.NRGBA),
        (image.Point.mk x y).In
          ((sampleFresh.1.addAll sampleFresh.2
            [("a", sampleSmall), ("b", sampleDot)]).1.Bounds g) = true →
        (sampleFresh.1.addAll sampleFresh.2 [("a", sampleSmall), ("b", sampleDot)]).1.At
          (v.Set g x y c) x y = c) ∧
      (∀ t ∈ (sampleFresh.1.addAll sampleFresh.2
          [("a", sampleSmall), ("b", sampleDot)]).1.SubImages,
        ∃ w : subImage, t.Image = some w ∧
        ∀ (g : Heap) (x y : Int) (c : color.NRGBA),
          (image.Point.mk x y).In
            ((sampleFresh.1.addAll sampleFresh.2
              [("a", sampleSmall), ("b", sampleDot)]).1.Bounds g) = true →
          w.At (v.Set g x y c) x y = c) :=
  ⟨by decide, by decide, by decide, by decide,
    views_not_clipped sampleFresh.2 sampleFresh.1 4 4 [("a", sampleSmall), ("b", sampleDot)]
      (Fresh.new Heap.empty 4)⟩

/-! ## The packer along a sequence of calls -/

theorem requests_append (ops : List (String × image.Image)) (id : String)
    (img : image.Image) :
    requests (ops ++ [(id, img)]) = requests ops ++ [(img.Bounds.Dx, img.Bounds.Dy)] := by
  simp [requests]

theorem addAll_packer (ops : List (String × image.Image)) (h : Heap) (a : Atlas P) :
    (a.addAll h ops).1.packer = P.after a.packer (requests ops) := by
  induction ops generalizing h a with
  | nil => rfl
  | cons op ops ih =>
    obtain ⟨id, img⟩ := op
    simp only [Atlas.addAll, requests, List.map_cons, binpacker.Packer.after]
    rw [ih, Add_packer]
    rfl

theorem runLog_append_ok (P : binpacker.Packer) (reqs : List (Int × Int)) (s : P.State)
    (w h : Int) (hins : (P.Insert (P.after s reqs) w h).1.2 = none) :
    P.runLog s (reqs ++ [(w, h)]) =
      P.runLog s reqs ++ [((w, h), (P.Insert (P.after s reqs) w h).1.1)] := by
  induction reqs generalizing s with
  | nil =>
    simp only [binpacker.Packer.after] at hins
    simp [binpacker.Packer.runLog, binpacker.Packer.after, hins]
  | cons q reqs ih =>
    obtain ⟨w1, h1⟩ := q
    simp only [binpacker.Packer.after] at hins
    have hih := ih (P.Insert s w1 h1).2 hins
    show P.runLog s ((w1, h1) :: (reqs ++ [(w, h)])) = _
    simp only [binpacker.Packer.runLog, binpacker.Packer.after]
    cases h2 : (P.Insert s w1 h1).1.2 with
    | none => simp only [hih, List.cons_append]
    | some e => simp only [hih]

theorem run_eq_map_runLog (P : binpacker.Packer) (reqs : List (Int × Int)) (s : P.State) :
    P.run s reqs = (P.runLog s reqs).map Prod.snd := by
  induction reqs generalizing s with
  | nil => rfl
  | cons q reqs ih =>
    obtain ⟨w1, h1⟩ := q
    simp only [binpacker.Packer.run, binpacker.Packer.runLog]
    cases h2 : (P.Insert s w1 h1).1.2 with
    | none => simp only [ih, List.map_cons]
    | some e => simp only [ih]

theorem runLog_mem_request (P : binpacker.Packer) (reqs : List (Int × Int)) (s : P.State) :
    ∀ qr ∈ P.runLog s reqs, qr.1 ∈ reqs := by
  induction reqs generalizing s with
  | nil => simp [binpacker.Packer.runLog]
  | cons q reqs ih =>
    obtain ⟨w1, h1⟩ := q
    intro qr hqr
    simp only [binpacker.Packer.runLog] at hqr
    cases h2 : (P.Insert s w1 h1).1.2 with
    | none =>
      simp only [h2, List.mem_cons] at hqr
      rcases hqr with hqr | hqr
      · rw [hqr]; exact List.mem_cons_self _ _
      · exact List.mem_cons_of_mem _ (ih _ qr hqr)
    | some e =>
      simp only [h2] at hqr
      exact List.mem_cons_of_mem _ (ih _ qr hqr)

/-- On its first request the sample packer grants only the requested size, inside
its bin. -/
theorem rowPacker_first (S w h : Int)
    (hok : (rowPacker.Insert (rowPacker.New S S) w h).1.2 = none) :
    (rowPacker.Insert (rowPacker.New S S) w h).1.1.Width = w ∧
    (rowPacker.Insert (rowPacker.New S S) w h).1.1.Height = h ∧
    (rowPacker.Insert (rowPacker.New S S) w h).1.1.inBin S S = true := by
  simp only [rowPacker] at hok ⊢
  split at hok
  · rename_i hc
    rw [if_pos hc]
    simp only [binpacker.Rect.inBin, Bool.and_eq_true, decide_eq_true_eq, true_and]
    refine ⟨⟨⟨?_, ?_⟩, ?_⟩, ?_⟩ <;> omega
  · simp at hok

/-! ## No space -/

/-- C13: on a fresh atlas `New(S)` whose packer grants on its first request only a
rectangle of the requested size inside the bin of `S` by `S`, `Add` of an image wider
or higher than `S` answers the zero `SubImage` and the no-space error, and `SubImages`
stays empty; this holds for every `S`, positive or not. -/
theorem Add_oversized (P : binpacker.Packer) (h : Heap) (S : Int) (id : String)
    (img : image.Image) (hbig : S < img.Bounds.Dx ∨ S < img.Bounds.Dy)
    (hc : ∀ w ht : Int, (P.Insert (P.New S S) w ht).1.2 = none →
      (P.Insert (P.New S S) w ht).1.1.Width = w ∧
      (P.Insert (P.New S S) w ht).1.1.Height = ht ∧
      (P.Insert (P.New S S) w ht).1.1.inBin S S = true) :
    (∃ e : String, ((New P h S).1.Add (New P h S).2 id img).err
      = some ("unable to add image to atlas: " ++ e)) ∧
    ((New P h S).1.Add (New P h S).2 id img).sub = SubImage.zero ∧
    ((New P h S).1.Add (New P h S).2 id img).atlas.SubImages = [] := by
  cases hins : (P.Insert (New P h S).1.packer img.Bounds.Dx img.Bounds.Dy).1.2 with
  | some e =>
    rw [Add_of_error _ _ id img e hins]
    exact ⟨⟨e, rfl⟩, rfl, rfl⟩
  | none =>
    have hp : (New P h S).1.packer = P.New S S := rfl
    rw [hp] at hins
    obtain ⟨hw, hh, hb⟩ := hc _ _ hins
    simp only [binpacker.Rect.inBin, Bool.and_eq_true, decide_eq_true_eq] at hb
    omega

/-- Witness for C13: a 5 by 5 image on `New(4)` with the sample packer. -/
theorem Add_oversized_witness :
    (((4 : Int) < sampleBig.Bounds.Dx ∨ (4 : Int) < sampleBig.Bounds.Dy) ∧
      ∀ w ht : Int, (rowPacker.Insert (rowPacker.New 4 4) w ht).1.2 = none →
        (rowPacker.Insert (rowPacker.New 4 4) w ht).1.1.Width = w ∧
        (rowPacker.Insert (rowPacker.New 4 4) w ht).1.1.Height = ht ∧
        (rowPacker.Insert (rowPacker.New 4 4) w ht).1.1.inBin 4 4 = true) ∧
    ((∃ e : String,
        ((New rowPacker Heap.empty 4).1.Add (New rowPacker Heap.empty 4).2 "big" sampleBig).err
          = some ("unable to add image to atlas: " ++ e)) ∧
    ((New rowPacker Heap.empty 4).1.Add (New rowPacker Heap.empty 4).2 "big" sampleBig).sub
      = SubImage.zero ∧
    ((New rowPacker Heap.empty 4).1.Add (New rowPacker Heap.empty 4).2 "big"
      sampleBig).atlas.SubImages = []) :=
  ⟨⟨by decide, rowPacker_first 4⟩,
    Add_oversized rowPacker Heap.empty 4 "big" sampleBig (by decide) (rowPacker_first 4)⟩

/-- C14: on an atlas `New(S)` on which an `Add` of an image of positive width and
height has succeeded, when the packer keeps its contract (requested size, inside the
bin, no overlap) also for the new request, `Add` of an image of `S` by `S` answers the
zero `SubImage` and the no-space error and leaves `SubImages` unchanged. -/
theorem Add_full_after_placement (P : binpacker.Packer) (h : Heap) (S : Int)
    (ops : List (String × image.Image)) (id : String) (img : image.Image)
    (hdx : img.Bounds.Dx = S) (hdy : img.Bounds.Dy = S)
    (hprev : ∃ qr ∈ P.runLog (P.New S S) (requests ops), 0 < qr.1.1 ∧ 0 < qr.1.2)
    (hc : binpacker.Contract S S (P.runLog (P.New S S) (requests (ops ++ [(id, img)])))) :
    (∃ e : String,
      (((New P h S).1.addAll (New P h S).2 ops).1.Add
        ((New P h S).1.addAll (New P h S).2 ops).2 id img).err
        = some ("unable to add image to atlas: " ++ e)) ∧
    (((New P h S).1.addAll (New P h S).2 ops).1.Add
      ((New P h S).1.addAll (New P h S).2 ops).2 id img).sub = SubImage.zero ∧
    (((New P h S).1.addAll (New P h S).2 ops).1.Add
      ((New P h S).1.addAll (New P h S).2 ops).2 id img).atlas.SubImages
      = ((New P h S).1.addAll (New P h S).2 ops).1.SubImages := by
  cases hins : (P.Insert ((New P h S).1.addAll (New P h S).2 ops).1.packer
      img.Bounds.Dx img.Bounds.Dy).1.2 with
  | some e =>
    rw [Add_of_error _ _ id img e hins]
    exact ⟨⟨e, rfl⟩, rfl, rfl⟩
  | none =>
    exfalso
    have hp : (New P h S).1.packer = P.New S S := rfl
    rw [addAll_packer, hp] at hins
    rw [requests_append, runLog_append_ok P _ _ _ _ hins] at hc
    obtain ⟨hsize, hpw⟩ := hc
    obtain ⟨qr, hqr, hq1, hq2⟩ := hprev
    have h0 := hsize qr (List.mem_append_left _ hqr)
    have h1 := hsize _ (List.mem_append_right _ (List.mem_singleton_self _))
    rw [List.map_append, List.pairwise_append] at hpw
    have hno := hpw.2.2 qr.2 (List.mem_map_of_mem _ hqr)
      (P.Insert (P.after (P.New S S) (requests ops)) img.Bounds.Dx img.Bounds.Dy).1.1
      (by simp)
    simp only [binpacker.Rect.inBin, Bool.and_eq_true, decide_eq_true_eq] at h0 h1
    have hov : qr.2.toRectangle.Overlaps
        (P.Insert (P.after (P.New S S) (requests ops)) img.Bounds.Dx
          img.Bounds.Dy).1.1.toRectangle = true := by
      simp only [image.Rectangle.Overlaps, image.Rectangle.Empty, binpacker.Rect.toRectangle,
        Bool.and_eq_true, Bool.not_eq_true', Bool.or_eq_false_iff, decide_eq_false_iff_not,
        decide_eq_true_eq]
      omega
    rw [hov] at hno
    exact absurd hno (by simp)

/-- Witness for C14: `New(4)`, `Add("a", 2x2)` succeeds, then `Add("b", 4x4)` fails;
afterwards `GetSubImageByID("a")` answers the first view and `GetSubImageByID("z")`
fails. -/
theorem Add_full_after_placement_witness :
    (sampleFull.Bounds.Dx = 4 ∧ sampleFull.Bounds.Dy = 4 ∧
      (∃ qr ∈ rowPacker.runLog (rowPacker.New 4 4) (requests [("a", sampleSmall)]),
        0 < qr.1.1 ∧ 0 < qr.1.2) ∧
      binpacker.Contract 4 4 (rowPacker.runLog (rowPacker.New 4 4)
        (requests ([("a", sampleSmall)] ++ [("b", sampleFull)])))) ∧
    ((∃ e : String,
      (((New rowPacker Heap.empty 4).1.addAll (New rowPacker Heap.empty 4).2
          [("a", sampleSmall)]).1.Add
        ((New rowPacker Heap.empty 4).1.addAll (New rowPacker Heap.empty 4).2
          [("a", sampleSmall)]).2 "b" sampleFull).err
        = some ("unable to add image to atlas: " ++ e)) ∧
    (((New rowPacker Heap.empty 4).1.addAll (New rowPacker Heap.empty 4).2
        [("a", sampleSmall)]).1.Add
      ((New rowPacker Heap.empty 4).1.addAll (New rowPacker Heap.empty 4).2
        [("a", sampleSmall)]).2 "b" sampleFull).sub = SubImage.zero ∧
    (((New rowPacker Heap.empty 4).1.addAll (New rowPacker Heap.empty 4).2
        [("a", sampleSmall)]).1.Add
      ((New rowPacker Heap.empty 4).1.addAll (New rowPacker Heap.empty 4).2
        [("a", sampleSmall)]).2 "b" sampleFull).atlas.SubImages
      = ((New rowPacker Heap.empty 4).1.addAll (New rowPacker Heap.empty 4).2
        [("a", sampleSmall)]).1.SubImages) ∧
    (((New rowPacker Heap.empty 4).1.addAll (New rowPacker Heap.empty 4).2
        [("a", sampleSmall)]).1.Add
      ((New rowPacker Heap.empty 4).1.addAll (New rowPacker Heap.empty 4).2
        [("a", sampleSmall)]).2 "b" sampleFull).atlas.GetSubImageByID "a"
      = (⟨some ⟨0, ⟨⟨0, 0⟩, ⟨2, 2⟩⟩⟩, "a"⟩, none) ∧
    ((((New rowPacker Heap.empty 4).1.addAll (New rowPacker Heap.empty 4).2
        [("a", sampleSmall)]).1.Add
      ((New rowPacker Heap.empty 4).1.addAll (New rowPacker Heap.empty 4).2
        [("a", sampleSmall)]).2 "b" sampleFull).atlas.GetSubImageByID "z").2 ≠ none :=
  ⟨⟨by decide, by decide, by decide, ⟨by decide, by decide⟩⟩,
    Add_full_after_placement rowPacker Heap.empty 4 [("a", sampleSmall)] "b" sampleFull
      (by decide) (by decide) (by decide) ⟨by decide, by decide⟩,
    by decide, by decide⟩

/-! ## Counting pixels -/

theorem area_eq_card (r : image.Rectangle) : r.area = (r.cells.card : Int) := by
  simp only [image.Rectangle.area, image.Rectangle.cells, Finset.card_product, Int.card_Ico,
    image.Rectangle.Empty, image.Rectangle.Dx, image.Rectangle.Dy, Bool.or_eq_true,
    decide_eq_true_eq]
  split
  · rename_i he
    rcases he with he | he
    · have : (r.Max.X - r.Min.X).toNat = 0 := by omega
      simp [this]
    · have : (r.Max.Y - r.Min.Y).toNat = 0 := by omega
      simp [this]
  · rename_i he
    have h1 : ((r.Max.X - r.Min.X).toNat : Int) = r.Max.X - r.Min.X := by omega
    have h2 : ((r.Max.Y - r.Min.Y).toNat : Int) = r.Max.Y - r.Min.Y := by omega
    rw [Nat.cast_mul, h1, h2]

theorem mem_cells (r : image.Rectangle) (p : Int × Int) :
    p ∈ r.cells ↔ r.Min.X ≤ p.1 ∧ p.1 < r.Max.X ∧ r.Min.Y ≤ p.2 ∧ p.2 < r.Max.Y := by
  simp only [image.Rectangle.cells, Finset.mem_product, Finset.mem_Ico]
  tauto

theorem cells_disjoint (r s : image.Rectangle) (h : r.Overlaps s = false) :
    Disjoint r.cells s.cells := by
  rw [Finset.disjoint_left]
  intro p hr hs
  rw [mem_cells] at hr hs
  have : r.Overlaps s = true := by
    simp only [image.Rectangle.Overlaps, image.Rectangle.Empty, Bool.and_eq_true,
      Bool.not_eq_true', Bool.or_eq_false_iff, decide_eq_false_iff_not, decide_eq_true_eq]
    omega
  rw [h] at this
  exact absurd this (by simp)

theorem cells_subset_bin (r : binpacker.Rect) (W H : Int) (h : r.inBin W H = true) :
    r.toRectangle.cells ⊆ (image.Rectangle.mk ⟨0, 0⟩ ⟨W, H⟩).cells := by
  intro p hp
  simp only [binpacker.Rect.inBin, Bool.and_eq_true, decide_eq_true_eq] at h
  rw [mem_cells] at hp ⊢
  simp only [binpacker.Rect.toRectangle] at hp ⊢
  omega

/-- Pairwise disjoint finite sets inside a finite set have at most its cardinality
in total. -/
theorem sum_card_le {α : Type} [DecidableEq α] (L : List (Finset α)) (B : Finset α)
    (hsub : ∀ f ∈ L, f ⊆ B) (hd : L.Pairwise (fun f g => Disjoint f g)) :
    (L.map Finset.card).sum ≤ B.card := by
  induction L generalizing B with
  | nil => simp
  | cons f L ih =>
    rw [List.pairwise_cons] at hd
    have hf : f ⊆ B := hsub f (List.mem_cons_self _ _)
    have hL : ∀ g ∈ L, g ⊆ B \ f := by
      intro g hg
      rw [Finset.subset_sdiff]
      exact ⟨hsub g (List.mem_cons_of_mem _ hg), (hd.1 g hg).symm⟩
    have h1 := ih (B \ f) hL hd.2
    have h2 := Finset.card_sdiff_add_card_eq_card hf
    simp only [List.map_cons, List.sum_cons]
    omega

theorem bin_area_le (S : Int) : (image.Rectangle.mk ⟨0, 0⟩ ⟨S, S⟩).area ≤ S * S := by
  simp only [image.Rectangle.area, image.Rectangle.Empty, image.Rectangle.Dx,
    image.Rectangle.Dy]
  split
  · exact mul_self_nonneg S
  · simp

/-- The rectangles of a run that keeps the contract cover at most the bin. -/
theorem log_area_le (W H : Int) (log : List ((Int × Int) × binpacker.Rect))
    (hc : binpacker.Contract W H log) :
    ((log.map Prod.snd).map (fun r => r.toRectangle.area)).sum
      ≤ (image.Rectangle.mk ⟨0, 0⟩ ⟨W, H⟩).area := by
  obtain ⟨hsize, hpw⟩ := hc
  have h1 := sum_card_le ((log.map Prod.snd).map (fun r => r.toRectangle.cells))
    (image.Rectangle.mk ⟨0, 0⟩ ⟨W, H⟩).cells
    (by
      intro f hf
      simp only [List.mem_map] at hf
      obtain ⟨r, ⟨qr, hqr, rfl⟩, rfl⟩ := hf
      exact cells_subset_bin _ W H (hsize qr hqr).2.2)
    (by
      rw [List.pairwise_map]
      exact hpw.imp (fun hrs => cells_disjoint _ _ hrs))
  rw [area_eq_card]
  have h2 : ((log.map Prod.snd).map (fun r => r.toRectangle.area)).sum =
      ((((log.map Prod.snd).map (fun r => r.toRectangle.cells)).map Finset.card).sum : Int) := by
    generalize log.map Prod.snd = L
    induction L with
    | nil => simp
    | cons r L ih =>
      simp only [List.map_cons, List.sum_cons, Nat.cast_add]
      rw [ih, area_eq_card]
  rw [h2]
  exact_mod_cast h1

theorem placed_area (o : image.Point) (r : binpacker.Rect) :
    (placed o r).area = r.toRectangle.area := by
  have he : (placed o r).Empty = r.toRectangle.Empty := by
    simp only [placed, binpacker.Rect.toRectangle, image.Rectangle.Empty, image.Point.Add,
      image.Pt]
    rw [Bool.eq_iff_iff]
    simp only [Bool.or_eq_true, decide_eq_true_eq]
    constructor <;> intro hh <;> omega
  have hx : (placed o r).Dx = r.toRectangle.Dx := by
    simp only [placed, binpacker.Rect.toRectangle, image.Rectangle.Dx, image.Point.Add,
      image.Pt]
    omega
  have hy : (placed o r).Dy = r.toRectangle.Dy := by
    simp only [placed, binpacker.Rect.toRectangle, image.Rectangle.Dy, image.Point.Add,
      image.Pt]
    omega
  simp only [image.Rectangle.area, he, hx, hy]

theorem filterMap_of_map_some {α β : Type} (f : α → Option β) (l : List α) (m : List β)
    (h : l.map f = m.map some) : l.filterMap f = m := by
  have h1 : l.filterMap f = (l.map f).filterMap id := by
    rw [List.filterMap_map]
    rfl
  rw [h1, h, List.filterMap_map]
  exact List.filterMap_some m

theorem length_le_sum {α : Type} (f : α → Int) (L : List α) (hf : ∀ x ∈ L, 1 ≤ f x) :
    (L.length : Int) ≤ (L.map f).sum := by
  induction L with
  | nil => simp
  | cons x L ih =>
    have h1 := hf x (List.mem_cons_self _ _)
    have h2 := ih (fun y hy => hf y (List.mem_cons_of_mem _ hy))
    simp only [List.length_cons, List.map_cons, List.sum_cons, Nat.cast_add, Nat.cast_one]
    omega

theorem addResults_length (ops : List (String × image.Image)) (h : Heap) (a : Atlas P) :
    (a.addResults h ops).length = ops.length := by
  induction ops generalizing h a with
  | nil => rfl
  | cons op ops ih =>
    obtain ⟨id, img⟩ := op
    simp only [Atlas.addResults, List.length_cons, ih]

theorem addResults_err (ops : List (String × image.Image)) (h : Heap) (a : Atlas P) :
    ∀ r ∈ a.addResults h ops,
      r.2 = none ∨ ∃ e : String, r.2 = some ("unable to add image to atlas: " ++ e) := by
  induction ops generalizing h a with
  | nil => simp [Atlas.addResults]
  | cons op ops ih =>
    obtain ⟨id, img⟩ := op
    intro r hr
    simp only [Atlas.addResults, List.mem_cons] at hr
    rcases hr with hr | hr
    · rw [hr]
      cases hins : (P.Insert a.packer img.Bounds.Dx img.Bounds.Dy).1.2 with
      | some e =>
        rw [Add_of_error h a id img e hins]
        exact Or.inr ⟨e, rfl⟩
      | none =>
        rw [Add_of_ok h a id img hins]
        exact Or.inl rfl
    · exact ih _ _ r hr

/-! ## Exhaustion -/

/-- C18: on an atlas `New(S)` and any sequence of `Add` calls during which the packer
keeps its contract (requested size, inside the bin, no overlap), the areas of the
`Bounds()` of all views sum to at most `S*S`; hence, when all the images have positive
width and height, at most `S*S` of the calls succeed, and a sequence of more than `S*S`
calls contains one that answers the no-space error. -/
theorem space_exhausted (P : binpacker.Packer) (h : Heap) (S : Int)
    (ops : List (String × image.Image))
    (hc : binpacker.Contract S S (P.runLog (P.New S S) (requests ops))) :
    (((((New P h S).1.addAll (New P h S).2 ops).1.SubImages.filterMap SubImage.Bounds).map
      image.Rectangle.area).sum ≤ S * S) ∧
    ((∀ op ∈ ops, 0 < op.2.Bounds.Dx ∧ 0 < op.2.Bounds.Dy) →
      ((((New P h S).1.addResults (New P h S).2 ops).filter
        (fun r => r.2.isNone)).length : Int) ≤ S * S ∧
      (S * S < (ops.length : Int) →
        ∃ r ∈ (New P h S).1.addResults (New P h S).2 ops,
          ∃ e : String, r.2 = some ("unable to add image to atlas: " ++ e))) := by
  have hf : Fresh P (New P h S).2 (New P h S).1 S S := Fresh.new h S
  have hB := built_Bounds hf ops
  have hfm := filterMap_of_map_some _ _ _ hB
  have harea : ((P.runLog (P.New S S) (requests ops)).map Prod.snd).map
      (fun r => r.toRectangle.area) =
      ((((New P h S).1.addAll (New P h S).2 ops).1.SubImages.filterMap SubImage.Bounds).map
        image.Rectangle.area) := by
    rw [hfm, run_eq_map_runLog]
    simp only [List.map_map]
    apply List.map_congr_left
    intro qr _
    simp only [Function.comp, placed_area]
  have hsum := le_trans (log_area_le S S _ hc) (bin_area_le S)
  rw [harea] at hsum
  refine ⟨hsum, ?_⟩
  intro hpos
  have hlen1 : (((New P h S).1.addResults (New P h S).2 ops).filter
      (fun r => r.2.isNone)).length = (P.runLog (P.New S S) (requests ops)).length := by
    have h1 := congrArg List.length (addAll_SubImages ops (New P h S).2 (New P h S).1)
    have h2 := congrArg List.length hB
    rw [run_eq_map_runLog] at h2
    simp only [List.length_map, List.length_append, Fresh_SubImages hf, List.length_nil,
      Nat.zero_add] at h1 h2
    omega
  have hone : ∀ r ∈ (P.runLog (P.New S S) (requests ops)).map Prod.snd,
      1 ≤ r.toRectangle.area := by
    intro r hr
    simp only [List.mem_map] at hr
    obtain ⟨qr, hqr, rfl⟩ := hr
    have hq := runLog_mem_request P _ _ qr hqr
    simp only [requests, List.mem_map] at hq
    obtain ⟨op, hop, hopq⟩ := hq
    have hp := hpos op hop
    have hs := hc.1 qr hqr
    rw [← hopq] at hs
    have hw : 0 < qr.2.Width := by rw [hs.1]; exact hp.1
    have hh : 0 < qr.2.Height := by rw [hs.2.1]; exact hp.2
    have hne : qr.2.toRectangle.Empty = false := by
      simp only [binpacker.Rect.toRectangle, image.Rectangle.Empty, Bool.or_eq_false_iff,
        decide_eq_false_iff_not]
      omega
    have e1 : qr.2.X + qr.2.Width - qr.2.X = qr.2.Width := by omega
    have e2 : qr.2.Y + qr.2.Height - qr.2.Y = qr.2.Height := by omega
    have ha : qr.2.toRectangle.area = qr.2.Width * qr.2.Height := by
      unfold image.Rectangle.area
      rw [hne]
      simp only [Bool.false_eq_true, if_false, binpacker.Rect.toRectangle,
        image.Rectangle.Dx, image.Rectangle.Dy, e1, e2]
    have hm := Int.mul_pos hw hh
    rw [ha]
    omega
  have hcount := length_le_sum (fun r : binpacker.Rect => r.toRectangle.area) _ hone
  rw [harea] at hcount
  simp only [List.length_map] at hcount
  have hle : ((((New P h S).1.addResults (New P h S).2 ops).filter
      (fun r => r.2.isNone)).length : Int) ≤ S * S := by
    rw [hlen1]
    exact le_trans hcount hsum
  refine ⟨hle, ?_⟩
  intro hlong
  by_contra hno
  have hall : ∀ r ∈ (New P h S).1.addResults (New P h S).2 ops, r.2.isNone = true := by
    intro r hr
    rcases addResults_err ops _ _ r hr with h1 | ⟨e, h1⟩
    · rw [h1]; rfl
    · exact absurd ⟨r, hr, e, h1⟩ hno
  have hfilter := List.filter_eq_self.2 hall
  rw [hfilter, addResults_length] at hle
  omega

/-- Witness for C18: two calls with a one-pixel image on `New(1)`; the second one
answers the no-space error. -/
theorem space_exhausted_witness :
    binpacker.Contract 1 1 (rowPacker.runLog (rowPacker.New 1 1) (requests sampleDots)) ∧
    (∀ op ∈ sampleDots, 0 < op.2.Bounds.Dx ∧ 0 < op.2.Bounds.Dy) ∧
    ((1 : Int) * 1 < (sampleDots.length : Int)) ∧
    (((((New rowPacker Heap.empty 1).1.addAll (New rowPacker Heap.empty 1).2
        sampleDots).1.SubImages.filterMap SubImage.Bounds).map
      image.Rectangle.area).sum ≤ 1 * 1) ∧
    ((((New rowPacker Heap.empty 1).1.addResults (New rowPacker Heap.empty 1).2
        sampleDots).filter (fun r => r.2.isNone)).length : Int) ≤ 1 * 1 ∧
    (∃ r ∈ (New rowPacker Heap.empty 1).1.addResults (New rowPacker Heap.empty 1).2
        sampleDots,
      ∃ e : String, r.2 = some ("unable to add image to atlas: " ++ e)) :=
  ⟨⟨by decide, by decide⟩, by decide, by decide,
    (space_exhausted rowPacker Heap.empty 1 sampleDots ⟨by decide, by decide⟩).1,
    ((space_exhausted rowPacker Heap.empty 1 sampleDots ⟨by decide, by decide⟩).2
      (by decide)).1,
    ((space_exhausted rowPacker Heap.empty 1 sampleDots ⟨by decide, by decide⟩).2
      (by decide)).2 (by decide)⟩


/-! ## Copy fidelity and colour models -/

theorem Convert_same (m : color.Model) (c : color.NRGBA) :
    m.Convert ⟨m, c⟩ = ⟨m, c⟩ := by
  cases m <;> rfl

theorem DrawImageTyped_same (m : color.Model) (dst : image.Image) (r : image.Rectangle)
    (src : image.Image) (sp : image.Point) :
    draw.DrawImageTyped m dst r m src sp = draw.DrawImage dst r src sp := by
  simp only [draw.DrawImageTyped, draw.DrawImage, Convert_same]

/-- When the source has the colour model of the surface, `Add` copies channels
unchanged. -/
theorem AddTyped_same (kind : Ref → color.Model) (h : Heap) (a : Atlas P) (id : String)
    (sm : color.Model) (img : image.Image) (hm : sm = kind a.Image) :
    a.AddTyped kind h id sm img = a.Add h id img := by
  subst hm
  simp only [Atlas.AddTyped, Atlas.Add, draw.DrawTyped, draw.Draw, DrawImageTyped_same]

/-- Counterexample for C6 as stated: on a surface that is an `*image.RGBA`, `Add` of a
one-pixel `*image.NRGBA` holding `color.NRGBA{1, 0, 0, 1}` succeeds with a rectangle
of the image's size inside the surface, and the view then reads
`color.RGBA{0, 0, 0, 1}` there: another colour value, also as 16-bit channels. -/
theorem Add_copy_fidelity_counterexample :
    ∃ v : subImage, sampleMixed.sub.Image = some v ∧ sampleMixed.err = none ∧
      v.Bounds.Dx = sampleFaint.Bounds.Dx ∧ v.Bounds.Dy = sampleFaint.Bounds.Dy ∧
      v.Bounds.In (sampleAdopted.Bounds sampleHeapOne) = true ∧
      v.ColorAt sampleKindRGBA sampleMixed.heap (v.Bounds.Min.X + 0) (v.Bounds.Min.Y + 0)
        = ⟨color.Model.RGBAModel, ⟨0, 0, 0, 1⟩⟩ ∧
      sampleFaint.ColorAt color.Model.NRGBAModel (sampleFaint.Bounds.Min.X + 0)
          (sampleFaint.Bounds.Min.Y + 0)
        = ⟨color.Model.NRGBAModel, ⟨1, 0, 0, 1⟩⟩ ∧
      v.ColorAt sampleKindRGBA sampleMixed.heap (v.Bounds.Min.X + 0) (v.Bounds.Min.Y + 0)
        ≠ sampleFaint.ColorAt color.Model.NRGBAModel (sampleFaint.Bounds.Min.X + 0)
            (sampleFaint.Bounds.Min.Y + 0) ∧
      (v.ColorAt sampleKindRGBA sampleMixed.heap (v.Bounds.Min.X + 0)
          (v.Bounds.Min.Y + 0)).RGBA
        ≠ (sampleFaint.ColorAt color.Model.NRGBAModel (sampleFaint.Bounds.Min.X + 0)
            (sampleFaint.Bounds.Min.Y + 0)).RGBA :=
  ⟨⟨0, ⟨⟨0, 0⟩, ⟨1, 1⟩⟩⟩, by decide, by decide, by decide, by decide, by decide, by decide,
    by decide, by decide, by decide⟩

/-- C6, amended: when `Add` answers a view whose rectangle has the width and height of
`img` and lies inside the surface, and `img` has the colour model of the surface, the
call succeeded and reading the view at `(Bounds().Min.X+dx, Bounds().Min.Y+dy)` gives
exactly the colour value of `img` at `(img.Bounds().Min.X+dx, img.Bounds().Min.Y+dy)`,
for all `0 <= dx < w`, `0 <= dy < h`, whatever the surface held before. -/
theorem Add_copy_same_model (kind : Ref → color.Model) (h : Heap) (a : Atlas P)
    (id : String) (sm : color.Model) (img : image.Image) (v : subImage)
    (hv : (a.AddTyped kind h id sm img).sub.Image = some v)
    (hdx : v.Bounds.Dx = img.Bounds.Dx) (hdy : v.Bounds.Dy = img.Bounds.Dy)
    (hin : v.Bounds.In (a.Bounds h) = true) (hm : sm = kind a.Image) :
    (a.AddTyped kind h id sm img).err = none ∧
    ∀ dx dy : Int, 0 ≤ dx → dx < img.Bounds.Dx → 0 ≤ dy → dy < img.Bounds.Dy →
      v.ColorAt kind (a.AddTyped kind h id sm img).heap (v.Bounds.Min.X + dx)
          (v.Bounds.Min.Y + dy) =
        img.ColorAt sm (img.Bounds.Min.X + dx) (img.Bounds.Min.Y + dy) := by
  rw [AddTyped_same kind h a id sm img hm] at hv ⊢
  obtain ⟨herr, hpix⟩ := Add_copy_fidelity h a id img v hv hdx hdy hin
  refine ⟨herr, ?_⟩
  intro dx dy h0 h1 h2 h3
  have hvi : v.Image = a.Image := by
    cases hins : (P.Insert a.packer img.Bounds.Dx img.Bounds.Dy).1.2 with
    | some e =>
      rw [Add_of_error h a id img e hins] at hv
      simp [SubImage.zero] at hv
    | none =>
      rw [Add_of_ok h a id img hins] at hv
      simp only [Option.some.injEq] at hv
      rw [← hv]
  have := hpix dx dy h0 h1 h2 h3
  simp only [subImage.ColorAt, Heap.ColorAt, image.Image.ColorAt, hvi, hm]
  simp only [subImage.At, hvi] at this
  rw [this]

/-- Witness for C6, amended: the 2 by 2 red `*image.NRGBA` added to `New(4)`, whose
surface is an `*image.NRGBA`. -/
theorem Add_copy_same_model_witness :
    (((sampleFresh.1.AddTyped (fun _ => color.Model.NRGBAModel) sampleFresh.2 "a"
          color.Model.NRGBAModel sampleSmall).sub.Image
        = some ⟨0, ⟨⟨0, 0⟩, ⟨2, 2⟩⟩⟩ ∧
      (subImage.mk 0 ⟨⟨0, 0⟩, ⟨2, 2⟩⟩).Bounds.Dx = sampleSmall.Bounds.Dx ∧
      (subImage.mk 0 ⟨⟨0, 0⟩, ⟨2, 2⟩⟩).Bounds.Dy = sampleSmall.Bounds.Dy ∧
      (subImage.mk 0 ⟨⟨0, 0⟩, ⟨2, 2⟩⟩).Bounds.In (sampleFresh.1.Bounds sampleFresh.2) = true ∧
      color.Model.NRGBAModel = (fun _ => color.Model.NRGBAModel) sampleFresh.1.Image)) ∧
    ((sampleFresh.1.AddTyped (fun _ => color.Model.NRGBAModel) sampleFresh.2 "a"
        color.Model.NRGBAModel sampleSmall).err = none ∧
    ∀ dx dy : Int, 0 ≤ dx → dx < sampleSmall.Bounds.Dx → 0 ≤ dy → dy < sampleSmall.Bounds.Dy →
      (subImage.mk 0 ⟨⟨0, 0⟩, ⟨2, 2⟩⟩).ColorAt (fun _ => color.Model.NRGBAModel)
          (sampleFresh.1.AddTyped (fun _ => color.Model.NRGBAModel) sampleFresh.2 "a"
            color.Model.NRGBAModel sampleSmall).heap
          ((subImage.mk 0 ⟨⟨0, 0⟩, ⟨2, 2⟩⟩).Bounds.Min.X + dx)
          ((subImage.mk 0 ⟨⟨0, 0⟩, ⟨2, 2⟩⟩).Bounds.Min.Y + dy) =
        sampleSmall.ColorAt color.Model.NRGBAModel (sampleSmall.Bounds.Min.X + dx)
          (sampleSmall.Bounds.Min.Y + dy)) :=
  ⟨⟨by decide, by decide, by decide, by decide, rfl⟩,
    Add_copy_same_model (fun _ => color.Model.NRGBAModel) sampleFresh.2 sampleFresh.1 "a"
      color.Model.NRGBAModel sampleSmall ⟨0, ⟨⟨0, 0⟩, ⟨2, 2⟩⟩⟩
      (by decide) (by decide) (by decide) (by decide) rfl⟩

/-! ## `New` and the size of the pixel buffer -/

theorem mul3NonNeg_of_fit (size : Int) (hs : 0 < size)
    (hfit : 4 * size * size < 9223372036854775808) :
    image.mul3NonNeg 4 size size = 4 * size * size := by
  have h1 : 4 * size ≤ 4 * size * size := by nlinarith
  have h2 : ¬ ((4 : Int) < 0 ∨ size < 0 ∨ size < 0) := by omega
  have h3 : ¬ (18446744073709551616 ≤ 4 * size) := by omega
  have h4 : (4 * size) % 18446744073709551616 = 4 * size := by omega
  have h5 : ¬ (18446744073709551616 ≤ 4 * size * size) := by omega
  have h6 : ¬ (9223372036854775808 ≤ 4 * size * size) := by omega
  simp only [image.mul3NonNeg, h2, h3, h4, h5, h6, if_false]

/-- Counterexample for C16 as stated: `1<<62` is a positive size, and `New(1<<62)`
answers no atlas: `image.NewNRGBA` panics because `4*size*size` overflows `int`, even
when the runtime grants every buffer. -/
theorem New_spec_counterexample :
    (0 : Int) < 4611686018427387904 ∧
    New.run (fun _ => true) rowPacker Heap.empty 4611686018427387904 = none :=
  ⟨by decide, Option.isNone_iff_eq_none.1 (by decide)⟩

theorem pixelBufferLength_of_fit (size : Int) (hs : 0 < size)
    (hfit : 4 * size * size < 9223372036854775808) :
    image.pixelBufferLength 4 (image.Rect 0 0 size size) = some (4 * size * size) := by
  have hn : ¬ (0 > size) := by omega
  have hd : (image.Rect 0 0 size size).Dx = size := by
    simp [image.Rect, image.Rectangle.Dx, hn]
  have hd2 : (image.Rect 0 0 size size).Dy = size := by
    simp [image.Rect, image.Rectangle.Dy, hn]
  have hnn : ¬ (4 * size * size < 0) := by nlinarith
  unfold image.pixelBufferLength
  rw [hd, hd2, mul3NonNeg_of_fit size hs hfit, if_neg hnn]

theorem New_run_of_fit (make : Int → Bool) (P : binpacker.Packer) (h : Heap) (size : Int)
    (hs : 0 < size) (hfit : 4 * size * size < 9223372036854775808)
    (hmake : make (4 * size * size) = true) :
    New.run make P h size = some (New P h size) := by
  unfold New.run image.NewNRGBA.run
  rw [pixelBufferLength_of_fit size hs hfit]
  simp only [hmake, if_true]

/-- C16, amended: for a positive `size` whose pixel buffer `image.NewNRGBA` can make
(`4*size*size` fits in `int` and the runtime grants a buffer of that length),
`New(size)` returns, and answers an atlas whose `Bounds()` is the square from `(0,0)`
to `(size,size)`, whose `SubImages` is empty, whose pixels are all the zero colour, and
whose packer was created for a bin of `size` by `size`. -/
theorem New_run_spec (make : Int → Bool) (P : binpacker.Packer) (h : Heap) (size : Int)
    (hs : 0 < size) (hfit : 4 * size * size < 9223372036854775808)
    (hmake : make (4 * size * size) = true) :
    New.run make P h size = some (New P h size) ∧
    (New P h size).1.Bounds (New P h size).2 = ⟨⟨0, 0⟩, ⟨size, size⟩⟩ ∧
    (New P h size).1.SubImages = [] ∧
    (∀ x y : Int, (New P h size).1.At (New P h size).2 x y = color.zero) ∧
    (New P h size).1.packer = P.New size size :=
  ⟨New_run_of_fit make P h size hs hfit hmake, New_spec P h size hs⟩

/-- Witness for C16, amended: `New(4)`, a buffer of 64 bytes. -/
theorem New_run_spec_witness :
    ((0 : Int) < 4 ∧ (4 : Int) * 4 * 4 < 9223372036854775808 ∧
      (fun _ : Int => true) (4 * 4 * 4) = true) ∧
    (New.run (fun _ => true) rowPacker Heap.empty 4 = some (New rowPacker Heap.empty 4) ∧
    (New rowPacker Heap.empty 4).1.Bounds (New rowPacker Heap.empty 4).2
        = ⟨⟨0, 0⟩, ⟨4, 4⟩⟩ ∧
    (New rowPacker Heap.empty 4).1.SubImages = [] ∧
    (∀ x y : Int,
      (New rowPacker Heap.empty 4).1.At (New rowPacker Heap.empty 4).2 x y = color.zero) ∧
    (New rowPacker Heap.empty 4).1.packer = rowPacker.New 4 4) :=
  ⟨⟨by decide, by decide, rfl⟩,
    New_run_spec (fun _ => true) rowPacker Heap.empty 4 (by decide) (by decide) rfl⟩

end atlas
